import Mathlib

/-!
# Pretty printing of log records (`src/app/pretty-print.js`)

A shallow embedding of `pretty.writePretty` and `pretty._getLogs`.

* JavaScript values are a tree-shaped datatype `JSValue`; objects are
  association lists in property order (keys are meant to be distinct, and all
  properties are own and enumerable).  Cyclic or shared structure is not
  represented.
* Mutation of the caller's `logContext` is explicit state passing: every
  operation returns its result together with the log context as it is after
  the call.
* A thrown exception is an `Except.error`.
* The third-party packages `chalk` and `json-format` are parameters
  (`Packages`); nothing is assumed about the strings they produce unless a
  statement says so.
* `./utils` (`isObjectEmpty`, `safeStringify`) is not among the sources and is
  modelled from the specification.
-/

set_option autoImplicit false

/-! ## JavaScript values -/

/-- JavaScript values handled by the printer.  `num n` is an integer-valued
Number (Numbers are only copied and printed here, never computed with),
`bigint n` is a BigInt. -/
inductive JSValue where
  | undefined
  | null
  | bool (b : Bool)
  | num (n : Int)
  | bigint (n : Int)
  | str (s : String)
  | arr (items : List JSValue)
  | obj (props : List (String × JSValue))

/-- A plain object: its own enumerable properties in property order. -/
abbrev JSObject := List (String × JSValue)

/-- JSON text, represented by the tree it denotes. -/
inductive Json where
  | null
  | bool (b : Bool)
  | num (n : Int)
  | str (s : String)
  | arr (items : List Json)
  | obj (members : List (String × Json))

/-- Exceptions that the modelled code can throw. -/
inductive Fault where
  /-- TypeError: cannot read properties of undefined or null (reading `property`). -/
  | readOfNullish (property : String)
  /-- TypeError: `callee` is not a function. -/
  | notAFunction (callee : String)
  /-- TypeError: do not know how to serialize a BigInt. -/
  | bigIntNotSerializable
  /-- SyntaxError raised by `JSON.parse` on the text "undefined". -/
  | jsonSyntaxError
deriving DecidableEq, Repr

/-- The keys of an object, in property order (`Object.keys`). -/
def JSObject.keys (o : JSObject) : List String := o.map Prod.fst

/-- Read of `o[key]` on a plain object for a key that `Object.prototype` does
not define: the own property, or `undefined`. -/
def JSObject.get (o : JSObject) (key : String) : JSValue :=
  (o.lookup key).getD JSValue.undefined

/-- Effect of `delete o[key]` on a plain object: the property is removed, an
absent key is left alone. -/
def JSObject.delete (o : JSObject) (key : String) : JSObject :=
  o.filter (fun p => p.1 != key)

/-- Effect of `o[key] = v` on a plain object: an existing property keeps its
place, a new one is added last. -/
def JSObject.set (o : JSObject) (key : String) (v : JSValue) : JSObject :=
  if o.any (fun p => p.1 == key) then
    o.map (fun p => if p.1 == key then (key, v) else p)
  else
    o ++ [(key, v)]

/-- Member read `v.key` (for a key that no built-in wrapper defines, such as
`file_name`): a TypeError on `undefined` and `null`, the own property of an
object, `undefined` on every other value. -/
def JSValue.getMember (v : JSValue) (key : String) : Except Fault JSValue :=
  match v with
  | .undefined => .error (.readOfNullish key)
  | .null => .error (.readOfNullish key)
  | .obj props => .ok (JSObject.get props key)
  | _ => .ok .undefined

/-- Optional chaining `v?.key`: `undefined` on `undefined` and `null`,
otherwise the member read. -/
def JSValue.getOptional (v : JSValue) (key : String) : JSValue :=
  match v with
  | .undefined => .undefined
  | .null => .undefined
  | .obj props => JSObject.get props key
  | _ => .undefined

/-- Truthiness (`!!v`). -/
def JSValue.toBoolean : JSValue → Bool
  | .undefined => false
  | .null => false
  | .bool b => b
  | .num n => n != 0
  | .bigint n => n != 0
  | .str s => s != ""
  | .arr _ => true
  | .obj _ => true

mutual
/-- String conversion (`String(v)`), which chalk applies to its argument. -/
def JSValue.toJSString : JSValue → String
  | .undefined => "undefined"
  | .null => "null"
  | .bool true => "true"
  | .bool false => "false"
  | .num n => toString n
  | .bigint n => toString n
  | .str s => s
  | .arr items => JSValue.joinItems items
  | .obj _ => "[object Object]"
/-- Conversion of the elements of an array joined by commas
(`Array.prototype.join`): `undefined` and `null` elements give the empty
string. -/
def JSValue.joinItems : List JSValue → String
  | [] => ""
  | [x] => JSValue.itemString x
  | x :: y :: rest => JSValue.itemString x ++ "," ++ JSValue.joinItems (y :: rest)
/-- One element of a joined array. -/
def JSValue.itemString : JSValue → String
  | .undefined => ""
  | .null => ""
  | .bool true => "true"
  | .bool false => "false"
  | .num n => toString n
  | .bigint n => toString n
  | .str s => s
  | .arr items => JSValue.joinItems items
  | .obj _ => "[object Object]"
end

/-! ## External packages -/

/-- The chalk styles used by the module: each maps a text to the styled text. -/
structure Chalk where
  white : String → String
  red : String → String
  redUnderline : String → String
  yellow : String → String
  cyan : String → String
  blue : String → String
  green : String → String
  underlineGreen : String → String

/-- The packages required by the module: chalk, and the function exported by
json-format, called as `format value type size`. -/
structure Packages where
  chalk : Chalk
  format : JSValue → String → Nat → String

/-! ## JSON built-ins -/

mutual
/-- Result of `JSON.stringify(v)` without a replacer: `none` stands for the
result `undefined` (no text), and a BigInt anywhere in the value throws. -/
def JSON.stringify : JSValue → Except Fault (Option Json)
  | .undefined => .ok none
  | .null => .ok (some .null)
  | .bool b => .ok (some (.bool b))
  | .num n => .ok (some (.num n))
  | .bigint _ => .error .bigIntNotSerializable
  | .str s => .ok (some (.str s))
  | .arr items =>
    match JSON.stringifyItems items with
    | .error e => .error e
    | .ok js => .ok (some (.arr js))
  | .obj props =>
    match JSON.stringifyProps props with
    | .error e => .error e
    | .ok ms => .ok (some (.obj ms))
/-- Elements of an array: an element without a JSON form is written `null`. -/
def JSON.stringifyItems : List JSValue → Except Fault (List Json)
  | [] => .ok []
  | x :: rest =>
    match JSON.stringify x with
    | .error e => .error e
    | .ok j =>
      match JSON.stringifyItems rest with
      | .error e => .error e
      | .ok js => .ok (j.getD Json.null :: js)
/-- Properties of an object: a property without a JSON form is left out. -/
def JSON.stringifyProps : List (String × JSValue) → Except Fault (List (String × Json))
  | [] => .ok []
  | (k, v) :: rest =>
    match JSON.stringify v with
    | .error e => .error e
    | .ok j =>
      match JSON.stringifyProps rest with
      | .error e => .error e
      | .ok ms =>
        match j with
        | none => .ok ms
        | some jv => .ok ((k, jv) :: ms)
end

mutual
/-- The value denoted by a JSON text. -/
def Json.toValue : Json → JSValue
  | .null => .null
  | .bool b => .bool b
  | .num n => .num n
  | .str s => .str s
  | .arr items => .arr (Json.toValues items)
  | .obj members => .obj (Json.toProps members)
/-- The values denoted by the elements of a JSON array. -/
def Json.toValues : List Json → List JSValue
  | [] => []
  | j :: rest => Json.toValue j :: Json.toValues rest
/-- The properties denoted by the members of a JSON object. -/
def Json.toProps : List (String × Json) → List (String × JSValue)
  | [] => []
  | (k, j) :: rest => (k, Json.toValue j) :: Json.toProps rest
end

/-- Result of `JSON.parse(text)` where `text` is the result of a stringify
call: the missing text `undefined` is a SyntaxError. -/
def JSON.parse : Option Json → Except Fault JSValue
  | none => .error .jsonSyntaxError
  | some j => .ok (Json.toValue j)

/-! ## `./utils` -/

/-- Modelled from the spec: `isObjectEmpty` of `./utils`, which is not among
the sources.  Section 4.2 B.4: an object is non-empty when it has at least one
own enumerable key; the test is structural, not a falsiness test. -/
def utils.isObjectEmpty (o : JSObject) : Bool := o.keys.isEmpty

mutual
/-- Modelled from the spec: the conversion that `safeStringify` of `./utils`
(not among the sources) applies before serialization.  Section 4.2 B.6: every
arbitrary-precision integer becomes its decimal string, recursively through
nested mappings and sequences; nothing else changes. -/
def utils.bigIntsToStrings : JSValue → JSValue
  | .bigint n => .str (toString n)
  | .arr items => .arr (utils.bigIntsToStringsItems items)
  | .obj props => .obj (utils.bigIntsToStringsProps props)
  | .undefined => .undefined
  | .null => .null
  | .bool b => .bool b
  | .num n => .num n
  | .str s => .str s
/-- Modelled from the spec: `bigIntsToStrings` on the elements of a sequence. -/
def utils.bigIntsToStringsItems : List JSValue → List JSValue
  | [] => []
  | x :: rest => utils.bigIntsToStrings x :: utils.bigIntsToStringsItems rest
/-- Modelled from the spec: `bigIntsToStrings` on the values of a mapping. -/
def utils.bigIntsToStringsProps : List (String × JSValue) → List (String × JSValue)
  | [] => []
  | (k, v) :: rest => (k, utils.bigIntsToStrings v) :: utils.bigIntsToStringsProps rest
end

/-- Modelled from the spec: `safeStringify` of `./utils`, which is not among
the sources.  Section 4.2 B.6: big integers are converted to decimal strings
and the result is serialized as ordinary JSON. -/
def utils.safeStringify (v : JSValue) : Except Fault (Option Json) :=
  JSON.stringify (utils.bigIntsToStrings v)

/-! ## `pretty-print.js` -/

/-- One entry of `LEVELS_CONFIG`: a chalk style and an icon. -/
structure LevelConfig where
  color : String → String
  icon : String

/-- The constant `LEVELS_CONFIG` (lines 14-47): the own properties of the
object literal, in source order. -/
def LEVELS_CONFIG (chalk : Chalk) : List (String × LevelConfig) :=
  [ ("emergency", ⟨chalk.redUnderline, "●"⟩),
    ("alert", ⟨chalk.redUnderline, "◆"⟩),
    ("critical", ⟨chalk.red, "✖"⟩),
    ("error", ⟨chalk.red, "■"⟩),
    ("warn", ⟨chalk.yellow, "⚠"⟩),
    ("notice", ⟨chalk.cyan, "▶"⟩),
    ("info", ⟨chalk.blue, "ℹ"⟩),
    ("debug", ⟨chalk.green, "★"⟩) ]

/-- Names that every object literal inherits from `Object.prototype`; none of
the inherited values has a `color` property. -/
def objectPrototypeMembers : List String :=
  [ "constructor", "__defineGetter__", "__defineSetter__", "hasOwnProperty",
    "__lookupGetter__", "__lookupSetter__", "isPrototypeOf",
    "propertyIsEnumerable", "toString", "valueOf", "__proto__",
    "toLocaleString" ]

/-- What `LEVELS_CONFIG[level]` (line 59) evaluates to. -/
inductive LevelLookup where
  /-- An own entry of the table. -/
  | config (c : LevelConfig)
  /-- A value inherited from `Object.prototype`. -/
  | inherited
  /-- The value `undefined`: no such property. -/
  | undefined

/-- The read `LEVELS_CONFIG[level]` (line 59): own properties first, then the
prototype. -/
def lookupLevel (chalk : Chalk) (level : String) : LevelLookup :=
  match (LEVELS_CONFIG chalk).lookup level with
  | some c => .config c
  | none => if level ∈ objectPrototypeMembers then .inherited else .undefined

/-- The log context handed to the printer; the fields are typed as section 3
of the specification describes them. -/
structure LogContext where
  level : String
  dt : String
  message : String
  event : JSObject
  context : JSObject

namespace pretty

/-- The flag read `!!prettyOpts?.key` (lines 61-63). -/
def flag (prettyOpts : JSValue) (key : String) : Bool :=
  (prettyOpts.getOptional key).toBoolean

/-- The read `logContext.context.source.file_name` (line 67). -/
def fileName (logContext : LogContext) : Except Fault JSValue :=
  (JSObject.get logContext.context "source").getMember "file_name"

/-- Lines 87-94 of `_getLogs`: the log context after the reserved keys have
been deleted from `context` and `http_request` from `event`. -/
def removeKeys (logContext : LogContext) : LogContext :=
  let blacklist := ["runtime", "source", "system"]
  let context := blacklist.foldl (fun ctx key => JSObject.delete ctx key) logContext.context
  let event := JSObject.delete logContext.event "http_request"
  { logContext with event := event, context := context }

/-- Lines 86 and 96-104 of `_getLogs`: the object `logs`, built from the
filtered `event` and `context`. -/
def collectLogs (event context : JSObject) : JSObject :=
  let logs : JSObject := []
  let logs := if !utils.isObjectEmpty event then JSObject.set logs "event" (.obj event) else logs
  let logs := if !utils.isObjectEmpty context then JSObject.set logs "context" (.obj context) else logs
  logs

/-- Lines 116-117 of `_getLogs`: `JSON.parse(safeStringify(logs))`. -/
def serializeAndParse (logs : JSObject) : Except Fault JSValue :=
  match utils.safeStringify (.obj logs) with
  | .error e => .error e
  | .ok logsSerialized => JSON.parse logsSerialized

/-- The function `pretty._getLogs` (lines 85-122): the formatted body, and the
log context as the call leaves it. -/
def _getLogs (pk : Packages) (logContext : LogContext) : Except Fault String × LogContext :=
  let logContext1 := removeKeys logContext
  let logs := collectLogs logContext1.event logContext1.context
  if utils.isObjectEmpty logs then
    (.ok "", logContext1)
  else
    match serializeAndParse logs with
    | .error e => (.error e, logContext1)
    | .ok logsSafe =>
      let prettyLogs := pk.format logsSafe "space" 2
      (.ok (prettyLogs ++ "\n"), logContext1)

/-- The function `pretty.writePretty` (lines 57-76): the formatted output or
the exception thrown, and the log context as the call leaves it. -/
def writePretty (pk : Packages) (logContext : LogContext) (prettyOpts : JSValue) :
    Except Fault String × LogContext :=
  let config := lookupLevel pk.chalk logContext.level
  let noTimestamp := flag prettyOpts "noTimestamp"
  let noFilename := flag prettyOpts "noFilename"
  let onlyMessage := flag prettyOpts "onlyMessage"
  let fileResult : Except Fault String :=
    if noFilename then .ok ""
    else
      match fileName logContext with
      | .error e => .error e
      | .ok name => .ok (" " ++ pk.chalk.underlineGreen name.toJSString)
  match fileResult with
  | .error e => (.error e, logContext)
  | .ok file =>
    let date := if noTimestamp then "" else pk.chalk.white ("[" ++ logContext.dt ++ "] ")
    match config with
    | .undefined => (.error (.readOfNullish "color"), logContext)
    | .inherited => (.error (.notAFunction "config.color"), logContext)
    | .config c =>
      let level := c.color (c.icon ++ " " ++ logContext.level)
      let message := c.color logContext.message
      match (if onlyMessage then (Except.ok "", logContext) else _getLogs pk logContext) with
      | (.error e, logContext1) => (.error e, logContext1)
      | (.ok logs, logContext1) =>
        (.ok (date ++ level ++ file ++ " - " ++ message ++ "\n" ++ logs), logContext1)

end pretty

/-! ## A concrete choice of packages

Used to evaluate the definitions at concrete inputs. -/

/-- A terminal style: the text between an opening and a closing ANSI code. -/
def ansi (openCode closeCode : String) (s : String) : String :=
  "\x1b[" ++ openCode ++ "m" ++ s ++ "\x1b[" ++ closeCode ++ "m"

/-- Chalk with colours enabled, on texts without line breaks or escape codes. -/
def ansiChalk : Chalk where
  white := ansi "37" "39"
  red := ansi "31" "39"
  redUnderline := fun s => ansi "31" "39" (ansi "4" "24" s)
  yellow := ansi "33" "39"
  cyan := ansi "36" "39"
  blue := ansi "34" "39"
  green := ansi "32" "39"
  underlineGreen := fun s => ansi "4" "24" (ansi "32" "39" s)

mutual
/-- An indenting printer of JSON values: `pad` is one level of indentation,
`cur` the indentation of the enclosing line. -/
def indentValue (pad cur : String) : JSValue → String
  | .undefined => "undefined"
  | .null => "null"
  | .bool true => "true"
  | .bool false => "false"
  | .num n => toString n
  | .bigint n => toString n
  | .str s => "\"" ++ s ++ "\""
  | .arr items => "[\n" ++ indentItems pad (cur ++ pad) items ++ "\n" ++ cur ++ "]"
  | .obj props => "\x7b\n" ++ indentProps pad (cur ++ pad) props ++ "\n" ++ cur ++ "\x7d"
/-- The elements of an array, one per line. -/
def indentItems (pad cur : String) : List JSValue → String
  | [] => ""
  | [x] => cur ++ indentValue pad cur x
  | x :: y :: rest => cur ++ indentValue pad cur x ++ ",\n" ++ indentItems pad cur (y :: rest)
/-- The properties of an object, one per line. -/
def indentProps (pad cur : String) : List (String × JSValue) → String
  | [] => ""
  | [(k, v)] => cur ++ "\"" ++ k ++ "\": " ++ indentValue pad cur v
  | (k, v) :: q :: rest =>
    cur ++ "\"" ++ k ++ "\": " ++ indentValue pad cur v ++ ",\n" ++ indentProps pad cur (q :: rest)
end

/-- A formatter in the manner of json-format: `size` copies of a space (or of
a tab for any other `type`) per level. -/
def indentFormat (v : JSValue) (type : String) (size : Nat) : String :=
  indentValue (String.join (List.replicate size (if type = "space" then " " else "\t"))) "" v

/-- Chalk with colours enabled and an indenting formatter. -/
def samplePackages : Packages where
  chalk := ansiChalk
  format := indentFormat

/-! ## Notions used by the statements -/

/-- The eight severities of the glossary. -/
def severities : List String :=
  ["emergency", "alert", "critical", "error", "warn", "notice", "info", "debug"]

/-- Timestamp segment of the header (section 4.2 A.2). -/
def timestampSegment (pk : Packages) (logContext : LogContext) (prettyOpts : JSValue) : String :=
  if pretty.flag prettyOpts "noTimestamp" then "" else pk.chalk.white ("[" ++ logContext.dt ++ "] ")

/-- Level segment of the header (section 4.2 A.3). -/
def levelSegment (config : LevelConfig) (logContext : LogContext) : String :=
  config.color (config.icon ++ " " ++ logContext.level)

/-- Filename segment of the header (section 4.2 A.4), for the value `name` of
`context.source.file_name`. -/
def filenameSegment (pk : Packages) (prettyOpts : JSValue) (name : JSValue) : String :=
  if pretty.flag prettyOpts "noFilename" then "" else " " ++ pk.chalk.underlineGreen name.toJSString

/-- Message segment of the header (section 4.2 A.5). -/
def messageSegment (config : LevelConfig) (logContext : LogContext) : String :=
  config.color logContext.message

/-- Header line (section 4.2 A.6). -/
def headerLine (pk : Packages) (config : LevelConfig) (logContext : LogContext)
    (prettyOpts : JSValue) (name : JSValue) : String :=
  timestampSegment pk logContext prettyOpts ++ levelSegment config logContext ++
    filenameSegment pk prettyOpts name ++ " - " ++ messageSegment config logContext

/-- A text occurs inside another. -/
def occursIn (needle hay : String) : Prop :=
  ∃ before after : String, hay = before ++ needle ++ after

/-- A text without line breaks and without escape characters. -/
def plainText (s : String) : Bool :=
  s.data.all (fun c => c != '\n' && c != '\r' && c != Char.ofNat 27)

/-- One step into a value: a property of an object or an element of an array. -/
inductive Step where
  | key (k : String)
  | index (i : Nat)

/-- The value found by following a path of steps, if there is one. -/
def JSValue.descend : JSValue → List Step → Option JSValue
  | v, [] => some v
  | .obj props, .key k :: rest =>
    match props.lookup k with
    | some x => x.descend rest
    | none => none
  | .arr items, .index i :: rest =>
    match items.get? i with
    | some x => x.descend rest
    | none => none
  | _, _ => none

mutual
/-- Whether a BigInt occurs anywhere in a value. -/
def JSValue.hasBigInt : JSValue → Bool
  | .bigint _ => true
  | .arr items => JSValue.hasBigIntItems items
  | .obj props => JSValue.hasBigIntProps props
  | _ => false
/-- Whether a BigInt occurs in one of the values of a list. -/
def JSValue.hasBigIntItems : List JSValue → Bool
  | [] => false
  | x :: rest => JSValue.hasBigInt x || JSValue.hasBigIntItems rest
/-- Whether a BigInt occurs in one of the values of a property list. -/
def JSValue.hasBigIntProps : List (String × JSValue) → Bool
  | [] => false
  | (_, v) :: rest => JSValue.hasBigInt v || JSValue.hasBigIntProps rest
end

mutual
/-- The copy of a value that parsing its safe serialization gives, written as
one recursion; `none` where the value has no JSON form. -/
def safeCopy : JSValue → Option JSValue
  | .undefined => none
  | .null => some .null
  | .bool b => some (.bool b)
  | .num n => some (.num n)
  | .bigint n => some (.str (toString n))
  | .str s => some (.str s)
  | .arr items => some (.arr (safeCopyItems items))
  | .obj props => some (.obj (safeCopyProps props))
/-- The copies of the elements of an array. -/
def safeCopyItems : List JSValue → List JSValue
  | [] => []
  | x :: rest => (safeCopy x).getD .null :: safeCopyItems rest
/-- The copies of the properties of an object. -/
def safeCopyProps : List (String × JSValue) → List (String × JSValue)
  | [] => []
  | (k, v) :: rest =>
    match safeCopy v with
    | none => safeCopyProps rest
    | some w => (k, w) :: safeCopyProps rest
end

/-! ## Example inputs -/

/-- The record of section 8, example 9. -/
def diskFull : LogContext where
  level := "error"
  dt := "2024-01-01T00:00:00Z"
  message := "disk full"
  event := []
  context := [("source", .obj [("file_name", .str "disk.js")]), ("system", .obj [("pid", .num 1)])]

/-- A record that agrees with `diskFull` on level, timestamp, message and
source file name, and differs in the event and in the rest of the context. -/
def diskFullBusy : LogContext where
  level := "error"
  dt := "2024-01-01T00:00:00Z"
  message := "disk full"
  event := [("http_request", .obj [("url", .str "/upload")]), ("bytes", .bigint (2 ^ 63))]
  context := [("user", .str "ada"), ("source", .obj [("file_name", .str "disk.js"), ("line", .num 7)])]

/-- The record `diskFull` with a level that names a member inherited from
`Object.prototype`. -/
def constructorLevel : LogContext := { diskFull with level := "constructor" }

/-- The record `diskFull` with a level that names nothing. -/
def verboseLevel : LogContext := { diskFull with level := "verbose" }

/-- A record whose `context.source` is an object without a `file_name` key. -/
def sourceWithoutFileName : LogContext where
  level := "info"
  dt := "2024-01-01T00:00:00Z"
  message := "started"
  event := []
  context := [("source", .obj [("line", .num 7)])]

/-- A record whose `context` has no `source` key. -/
def noSource : LogContext where
  level := "error"
  dt := "2024-01-01T00:00:00Z"
  message := "disk full"
  event := []
  context := [("system", .obj [("pid", .num 1)])]

/-- Options with the three flags present and false. -/
def allFlagsFalse : JSValue :=
  .obj [("noTimestamp", .bool false), ("noFilename", .bool false), ("onlyMessage", .bool false)]

/-- Options that set flags by truthy values that are not booleans, next to a
key that is not recognized. -/
def truthyOptions : JSValue :=
  .obj [("noTimestamp", .num 1), ("colors", .bool true), ("onlyMessage", .str "yes")]

/-! ## Lemmas on the JSON round trip -/

mutual
theorem stringify_safe : ∀ v : JSValue,
    ∃ j, JSON.stringify (utils.bigIntsToStrings v) = .ok j ∧ j.map Json.toValue = safeCopy v
  | .undefined => ⟨none, by simp [utils.bigIntsToStrings, JSON.stringify, safeCopy]⟩
  | .null => ⟨some .null, by simp [utils.bigIntsToStrings, JSON.stringify, safeCopy, Json.toValue]⟩
  | .bool b => ⟨some (.bool b), by simp [utils.bigIntsToStrings, JSON.stringify, safeCopy, Json.toValue]⟩
  | .num n => ⟨some (.num n), by simp [utils.bigIntsToStrings, JSON.stringify, safeCopy, Json.toValue]⟩
  | .bigint n =>
    ⟨some (.str (toString n)), by simp [utils.bigIntsToStrings, JSON.stringify, safeCopy, Json.toValue]⟩
  | .str s => ⟨some (.str s), by simp [utils.bigIntsToStrings, JSON.stringify, safeCopy, Json.toValue]⟩
  | .arr items => by
    obtain ⟨js, h1, h2⟩ := stringifyItems_safe items
    exact ⟨some (.arr js), by simp [utils.bigIntsToStrings, JSON.stringify, safeCopy, Json.toValue, h1, h2]⟩
  | .obj props => by
    obtain ⟨ms, h1, h2⟩ := stringifyProps_safe props
    exact ⟨some (.obj ms), by simp [utils.bigIntsToStrings, JSON.stringify, safeCopy, Json.toValue, h1, h2]⟩
theorem stringifyItems_safe : ∀ xs : List JSValue,
    ∃ js, JSON.stringifyItems (utils.bigIntsToStringsItems xs) = .ok js ∧
      Json.toValues js = safeCopyItems xs
  | [] => ⟨[], by simp [utils.bigIntsToStringsItems, JSON.stringifyItems, safeCopyItems, Json.toValues]⟩
  | x :: rest => by
    obtain ⟨j, h1, h2⟩ := stringify_safe x
    obtain ⟨js, h3, h4⟩ := stringifyItems_safe rest
    refine ⟨j.getD Json.null :: js, by simp [utils.bigIntsToStringsItems, JSON.stringifyItems, h1, h3], ?_⟩
    cases j <;> simp_all [safeCopyItems, Json.toValues, Json.toValue]
    all_goals (rw [← h2]; simp [Json.toValue])
theorem stringifyProps_safe : ∀ ps : List (String × JSValue),
    ∃ ms, JSON.stringifyProps (utils.bigIntsToStringsProps ps) = .ok ms ∧
      Json.toProps ms = safeCopyProps ps
  | [] => ⟨[], by simp [utils.bigIntsToStringsProps, JSON.stringifyProps, safeCopyProps, Json.toProps]⟩
  | (k, v) :: rest => by
    obtain ⟨j, h1, h2⟩ := stringify_safe v
    obtain ⟨ms, h3, h4⟩ := stringifyProps_safe rest
    cases j with
    | none =>
      refine ⟨ms, by simp [utils.bigIntsToStringsProps, JSON.stringifyProps, h1, h3], ?_⟩
      simp at h2
      simp [safeCopyProps, ← h2, h4]
    | some jv =>
      refine ⟨(k, jv) :: ms, by simp [utils.bigIntsToStringsProps, JSON.stringifyProps, h1, h3], ?_⟩
      simp at h2
      simp [safeCopyProps, ← h2, h4, Json.toProps]
end

/-- Serializing and parsing an object never throws and gives its safe copy. -/
theorem serializeAndParse_eq (logs : JSObject) :
    pretty.serializeAndParse logs = .ok (.obj (safeCopyProps logs)) := by
  obtain ⟨j, h1, h2⟩ := stringify_safe (.obj logs)
  cases j with
  | none => simp [safeCopy] at h2
  | some jv =>
    simp only [safeCopy, Option.map_some', Option.some.injEq] at h2
    simp [pretty.serializeAndParse, utils.safeStringify, h1, JSON.parse, h2]

/-! ## Lemmas on `_getLogs` and `writePretty` -/

/-- The body that `_getLogs` returns. -/
theorem getLogs_fst (pk : Packages) (lc : LogContext) :
    (pretty._getLogs pk lc).1 =
      .ok (if utils.isObjectEmpty
              (pretty.collectLogs (pretty.removeKeys lc).event (pretty.removeKeys lc).context) then ""
           else pk.format (.obj (safeCopyProps
              (pretty.collectLogs (pretty.removeKeys lc).event (pretty.removeKeys lc).context)))
              "space" 2 ++ "\n") := by
  simp only [pretty._getLogs, serializeAndParse_eq]
  split <;> rfl

/-- The log context that `_getLogs` leaves. -/
theorem getLogs_snd (pk : Packages) (lc : LogContext) :
    (pretty._getLogs pk lc).2 = pretty.removeKeys lc := by
  simp only [pretty._getLogs, serializeAndParse_eq]
  split <;> rfl

/-- The registry has an entry exactly for the eight severities. -/
theorem lookup_isSome_iff (chalk : Chalk) (level : String) :
    (∃ cfg, (LEVELS_CONFIG chalk).lookup level = some cfg) ↔ level ∈ severities := by
  simp only [LEVELS_CONFIG, severities, List.lookup, List.mem_cons, List.not_mem_nil, or_false]
  constructor
  · intro h
    by_contra hne
    simp only [not_or] at hne
    obtain ⟨h1, h2, h3, h4, h5, h6, h7, h8⟩ := hne
    obtain ⟨cfg, h⟩ := h
    simp [beq_false_of_ne h1, beq_false_of_ne h2, beq_false_of_ne h3, beq_false_of_ne h4,
      beq_false_of_ne h5, beq_false_of_ne h6, beq_false_of_ne h7, beq_false_of_ne h8] at h
  · intro h
    rcases h with h | h | h | h | h | h | h | h
    all_goals (subst h; exact ⟨_, rfl⟩)

/-- The function `_getLogs` never throws. -/
theorem getLogs_ok (pk : Packages) (lc : LogContext) :
    ∃ body, pretty._getLogs pk lc = (.ok body, pretty.removeKeys lc) := by
  refine ⟨_, Prod.ext (getLogs_fst pk lc) (getLogs_snd pk lc)⟩

/-- The result of `writePretty` when the level is registered and the file
name can be read (or is not wanted). -/
theorem writePretty_registered (pk : Packages) (lc : LogContext) (opts : JSValue)
    (cfg : LevelConfig) (name : JSValue) (body : String) (lc1 : LogContext)
    (hlevel : (LEVELS_CONFIG pk.chalk).lookup lc.level = some cfg)
    (hfile : pretty.flag opts "noFilename" = false → pretty.fileName lc = .ok name)
    (hbody : (if pretty.flag opts "onlyMessage" then (Except.ok "", lc) else pretty._getLogs pk lc)
      = (.ok body, lc1)) :
    pretty.writePretty pk lc opts = (.ok (headerLine pk cfg lc opts name ++ "\n" ++ body), lc1) := by
  unfold pretty.writePretty
  simp only [lookupLevel, hlevel, hbody]
  cases hnf : pretty.flag opts "noFilename" with
  | true => simp [headerLine, timestampSegment, levelSegment, filenameSegment, messageSegment, hnf]
  | false =>
    simp [headerLine, timestampSegment, levelSegment, filenameSegment, messageSegment, hnf,
      hfile hnf]

/-! ## The claims -/

/-- C1: for a log context whose level is one of the eight severities, and any
options (the file name being readable unless `noFilename` is set),
`writePretty` returns exactly timestamp, level segment, filename segment,
" - ", message segment, a newline and the body, where the timestamp is empty
under `noTimestamp` and `white("[" ++ dt ++ "] ")` otherwise, the level
segment is `color(icon ++ " " ++ level)`, the filename segment is empty under
`noFilename` and `" " ++ underlineGreen(file_name)` otherwise, the message
segment is `color(message)`, and the body is empty under `onlyMessage` and the
result of `_getLogs` otherwise. -/
theorem writePretty_output (pk : Packages) (lc : LogContext) (opts : JSValue) (name : JSValue)
    (hlevel : lc.level ∈ severities)
    (hfile : pretty.flag opts "noFilename" = false → pretty.fileName lc = .ok name) :
    ∃ cfg body,
      (LEVELS_CONFIG pk.chalk).lookup lc.level = some cfg ∧
      (if pretty.flag opts "onlyMessage" then Except.ok "" else (pretty._getLogs pk lc).1)
        = .ok body ∧
      (pretty.writePretty pk lc opts).1 =
        .ok ((if pretty.flag opts "noTimestamp" then "" else pk.chalk.white ("[" ++ lc.dt ++ "] "))
          ++ cfg.color (cfg.icon ++ " " ++ lc.level)
          ++ (if pretty.flag opts "noFilename" then ""
              else " " ++ pk.chalk.underlineGreen name.toJSString)
          ++ " - " ++ cfg.color lc.message ++ "\n" ++ body) := by
  obtain ⟨cfg, hcfg⟩ := (lookup_isSome_iff pk.chalk lc.level).mpr hlevel
  obtain ⟨logs, hlogs⟩ := getLogs_ok pk lc
  cases honly : pretty.flag opts "onlyMessage" with
  | true =>
    refine ⟨cfg, "", hcfg, by simp, ?_⟩
    rw [writePretty_registered pk lc opts cfg name "" lc hcfg hfile (by simp [honly])]
    rfl
  | false =>
    refine ⟨cfg, logs, hcfg, by simp [hlogs], ?_⟩
    rw [writePretty_registered pk lc opts cfg name logs (pretty.removeKeys lc) hcfg hfile
      (by simp [honly, hlogs])]
    rfl

/-- Witness of C1: the record of section 8 with default options. -/
theorem writePretty_output_witness :
    diskFull.level ∈ severities ∧
    (pretty.flag .undefined "noFilename" = false → pretty.fileName diskFull = .ok (.str "disk.js")) ∧
    ∃ cfg body,
      (LEVELS_CONFIG samplePackages.chalk).lookup diskFull.level = some cfg ∧
      (if pretty.flag .undefined "onlyMessage" then Except.ok ""
        else (pretty._getLogs samplePackages diskFull).1) = .ok body ∧
      (pretty.writePretty samplePackages diskFull .undefined).1 =
        .ok ((if pretty.flag .undefined "noTimestamp" then ""
              else samplePackages.chalk.white ("[" ++ diskFull.dt ++ "] "))
          ++ cfg.color (cfg.icon ++ " " ++ diskFull.level)
          ++ (if pretty.flag .undefined "noFilename" then ""
              else " " ++ samplePackages.chalk.underlineGreen (JSValue.str "disk.js").toJSString)
          ++ " - " ++ cfg.color diskFull.message ++ "\n" ++ body) :=
  ⟨by decide, fun _ => rfl,
    writePretty_output samplePackages diskFull .undefined (.str "disk.js") (by decide) (fun _ => rfl)⟩

/-- C2: with `onlyMessage` set and a registered level, the output is the
header line followed by one newline and nothing else, and two log contexts
that agree on level, timestamp, message and `context.source.file_name` give
the same result whatever their events and the rest of their contexts are. -/
theorem writePretty_onlyMessage (pk : Packages) (lc1 lc2 : LogContext) (opts : JSValue)
    (hlevel : lc1.level ∈ severities)
    (honly : pretty.flag opts "onlyMessage" = true)
    (h1 : lc2.level = lc1.level) (h2 : lc2.dt = lc1.dt) (h3 : lc2.message = lc1.message)
    (h4 : pretty.fileName lc2 = pretty.fileName lc1) :
    (pretty.writePretty pk lc2 opts).1 = (pretty.writePretty pk lc1 opts).1 ∧
    ∃ cfg, (LEVELS_CONFIG pk.chalk).lookup lc1.level = some cfg ∧
      ∀ name, (pretty.flag opts "noFilename" = false → pretty.fileName lc1 = .ok name) →
        (pretty.writePretty pk lc1 opts).1 = .ok (headerLine pk cfg lc1 opts name ++ "\n") := by
  constructor
  · unfold pretty.writePretty
    simp only [honly, h1, h2, h3, h4, if_true]
    cases pretty.flag opts "noFilename" <;> cases pretty.fileName lc1 <;>
      cases lookupLevel pk.chalk lc1.level <;> simp
  · obtain ⟨cfg, hcfg⟩ := (lookup_isSome_iff pk.chalk lc1.level).mpr hlevel
    refine ⟨cfg, hcfg, fun name hfile => ?_⟩
    rw [writePretty_registered pk lc1 opts cfg name "" lc1 hcfg hfile (by simp [honly])]
    simp

/-- Witness of C2: two records that differ in event and context, with
`onlyMessage` set. -/
theorem writePretty_onlyMessage_witness :
    diskFull.level ∈ severities ∧
    pretty.flag (.obj [("onlyMessage", .bool true)]) "onlyMessage" = true ∧
    diskFullBusy.event ≠ diskFull.event ∧
    (pretty.writePretty samplePackages diskFullBusy (.obj [("onlyMessage", .bool true)])).1
      = (pretty.writePretty samplePackages diskFull (.obj [("onlyMessage", .bool true)])).1 :=
  ⟨by decide, rfl, by simp [diskFullBusy, diskFull],
    (writePretty_onlyMessage samplePackages diskFull diskFullBusy (.obj [("onlyMessage", .bool true)])
      (by decide) rfl rfl rfl rfl rfl).1⟩

theorem lookup_safeCopyProps (k : String) (y y2 : JSValue) :
    ∀ props : List (String × JSValue), props.lookup k = some y → safeCopy y = some y2 →
      (safeCopyProps props).lookup k = some y2
  | [], h, _ => by simp at h
  | (a, b) :: rest, h, hy => by
    rw [List.lookup_cons] at h
    cases hk : (k == a) with
    | true =>
      rw [hk] at h
      simp only [Option.some.injEq] at h
      subst h
      simp [safeCopyProps, hy, List.lookup_cons, hk]
    | false =>
      rw [hk] at h
      have ih := lookup_safeCopyProps k y y2 rest h hy
      cases hb : safeCopy b with
      | none => simp [safeCopyProps, hb, ih]
      | some w => simp [safeCopyProps, hb, List.lookup_cons, hk, ih]

theorem get?_safeCopyItems (y : JSValue) :
    ∀ (items : List JSValue) (i : Nat), items.get? i = some y →
      (safeCopyItems items).get? i = some ((safeCopy y).getD .null)
  | [], i, h => by simp at h
  | x :: rest, 0, h => by
    simp at h
    simp [safeCopyItems, h]
  | x :: rest, i + 1, h => by
    simp at h
    have := get?_safeCopyItems y rest i (by simpa using h)
    simpa [safeCopyItems] using this

theorem descend_safeCopy : ∀ (p : List Step) (v x x2 : JSValue),
    v.descend p = some x → safeCopy x = some x2 →
      ∃ w, safeCopy v = some w ∧ w.descend p = some x2
  | [], v, x, x2, h, hx => by
    simp [JSValue.descend] at h
    subst h
    exact ⟨x2, hx, by simp [JSValue.descend]⟩
  | .key k :: rest, v, x, x2, h, hx => by
    cases v <;> simp [JSValue.descend] at h
    rename_i props
    cases hl : props.lookup k with
    | none => simp [hl] at h
    | some y =>
      rw [hl] at h
      obtain ⟨w, hw, hd⟩ := descend_safeCopy rest y x x2 h hx
      refine ⟨.obj (safeCopyProps props), by simp [safeCopy], ?_⟩
      simp [JSValue.descend, lookup_safeCopyProps k y w props hl hw, hd]
  | .index i :: rest, v, x, x2, h, hx => by
    cases v <;> simp [JSValue.descend] at h
    rename_i items
    cases hl : items[i]? with
    | none => simp [hl] at h
    | some y =>
      have hg := get?_safeCopyItems y items i (by simpa using hl)
      simp only [List.get?_eq_getElem?] at hg
      rw [hl] at h
      obtain ⟨w, hw, hd⟩ := descend_safeCopy rest y x x2 h hx
      refine ⟨.arr (safeCopyItems items), by simp [safeCopy], ?_⟩
      simp [JSValue.descend, hg, hw, hd]

mutual
theorem bigIntsToStrings_id : ∀ v : JSValue, v.hasBigInt = false → utils.bigIntsToStrings v = v
  | .undefined, _ => by simp [utils.bigIntsToStrings]
  | .null, _ => by simp [utils.bigIntsToStrings]
  | .bool _, _ => by simp [utils.bigIntsToStrings]
  | .num _, _ => by simp [utils.bigIntsToStrings]
  | .bigint _, h => by simp [JSValue.hasBigInt] at h
  | .str _, _ => by simp [utils.bigIntsToStrings]
  | .arr items, h => by
    simp only [JSValue.hasBigInt] at h
    simp [utils.bigIntsToStrings, bigIntsToStringsItems_id items h]
  | .obj props, h => by
    simp only [JSValue.hasBigInt] at h
    simp [utils.bigIntsToStrings, bigIntsToStringsProps_id props h]
theorem bigIntsToStringsItems_id : ∀ xs : List JSValue, JSValue.hasBigIntItems xs = false →
    utils.bigIntsToStringsItems xs = xs
  | [], _ => by simp [utils.bigIntsToStringsItems]
  | x :: rest, h => by
    simp only [JSValue.hasBigIntItems, Bool.or_eq_false_iff] at h
    simp [utils.bigIntsToStringsItems, bigIntsToStrings_id x h.1, bigIntsToStringsItems_id rest h.2]
theorem bigIntsToStringsProps_id : ∀ ps : List (String × JSValue), JSValue.hasBigIntProps ps = false →
    utils.bigIntsToStringsProps ps = ps
  | [], _ => by simp [utils.bigIntsToStringsProps]
  | (k, v) :: rest, h => by
    simp only [JSValue.hasBigIntProps, Bool.or_eq_false_iff] at h
    simp [utils.bigIntsToStringsProps, bigIntsToStrings_id v h.1, bigIntsToStringsProps_id rest h.2]
end

theorem safeCopy_of_stringify (x : JSValue) (j : Json) (hx : x.hasBigInt = false)
    (hj : JSON.stringify x = .ok (some j)) : safeCopy x = some (Json.toValue j) := by
  obtain ⟨j2, h1, h2⟩ := stringify_safe x
  rw [bigIntsToStrings_id x hx, hj] at h1
  simp only [Except.ok.injEq] at h1
  subst h1
  simpa using h2.symm

/-! ## Lemmas on the removal of keys -/

theorem removeKeys_event (lc : LogContext) :
    (pretty.removeKeys lc).event = JSObject.delete lc.event "http_request" := rfl

theorem removeKeys_context (lc : LogContext) :
    (pretty.removeKeys lc).context =
      JSObject.delete (JSObject.delete (JSObject.delete lc.context "runtime") "source") "system" := rfl

theorem lookup_delete_ne (k key : String) (hk : k ≠ key) :
    ∀ o : JSObject, (JSObject.delete o key).lookup k = o.lookup k
  | [] => rfl
  | (a, b) :: rest => by
    have ih := lookup_delete_ne k key hk rest
    unfold JSObject.delete at ih ⊢
    by_cases ha : a = key
    · subst ha
      simp [List.filter_cons, List.lookup_cons, ih, beq_false_of_ne hk]
    · simp only [List.filter_cons, List.lookup_cons, ih, ha, bne_iff_ne, ne_eq, not_false_eq_true,
        decide_True, ite_true]

theorem not_mem_keys_delete (key : String) (o : JSObject) :
    key ∉ (JSObject.delete o key).keys := by
  simp [JSObject.delete, JSObject.keys, List.mem_map, List.mem_filter]

theorem mem_keys_delete (k key : String) (o : JSObject) (h : k ∈ (JSObject.delete o key).keys) :
    k ∈ o.keys := by
  simp only [JSObject.delete, JSObject.keys, List.mem_map, List.mem_filter] at h ⊢
  obtain ⟨p, ⟨hp, _⟩, rfl⟩ := h
  exact ⟨p, hp, rfl⟩

theorem collectLogs_lookup_event (event context : JSObject) (h : event ≠ []) :
    (pretty.collectLogs event context).lookup "event" = some (.obj event) := by
  cases event with
  | nil => exact absurd rfl h
  | cons p rest =>
    cases context <;>
      simp [pretty.collectLogs, utils.isObjectEmpty, JSObject.keys, JSObject.set, List.lookup_cons]

theorem collectLogs_lookup_context (event context : JSObject) (h : context ≠ []) :
    (pretty.collectLogs event context).lookup "context" = some (.obj context) := by
  cases context with
  | nil => exact absurd rfl h
  | cons p rest =>
    cases event <;>
      simp [pretty.collectLogs, utils.isObjectEmpty, JSObject.keys, JSObject.set, List.lookup_cons]

/-- A value under a key of `event` other than `http_request` is found under
`event` in the object `logs`. -/
theorem descend_logs_event (lc : LogContext) (k : String) (rest : List Step) (x : JSValue)
    (hk : k ≠ "http_request")
    (h : (JSValue.obj lc.event).descend (.key k :: rest) = some x) :
    (JSValue.obj (pretty.collectLogs (pretty.removeKeys lc).event
      (pretty.removeKeys lc).context)).descend (.key "event" :: .key k :: rest) = some x := by
  have hl : (pretty.removeKeys lc).event.lookup k = lc.event.lookup k := by
    rw [removeKeys_event]; exact lookup_delete_ne k _ hk _
  have hne : (pretty.removeKeys lc).event ≠ [] := by
    intro h0
    rw [h0] at hl
    simp only [JSValue.descend] at h
    rw [← hl] at h
    simp at h
  simp only [JSValue.descend, collectLogs_lookup_event _ _ hne, hl]
  simpa only [JSValue.descend] using h

/-- A value under a key of `context` other than the reserved ones is found
under `context` in the object `logs`. -/
theorem descend_logs_context (lc : LogContext) (k : String) (rest : List Step) (x : JSValue)
    (hk : k ∉ ["runtime", "source", "system"])
    (h : (JSValue.obj lc.context).descend (.key k :: rest) = some x) :
    (JSValue.obj (pretty.collectLogs (pretty.removeKeys lc).event
      (pretty.removeKeys lc).context)).descend (.key "context" :: .key k :: rest) = some x := by
  simp only [List.mem_cons, List.not_mem_nil, or_false, not_or] at hk
  have hl : (pretty.removeKeys lc).context.lookup k = lc.context.lookup k := by
    rw [removeKeys_context, lookup_delete_ne k _ hk.2.2, lookup_delete_ne k _ hk.2.1,
      lookup_delete_ne k _ hk.1]
  have hne : (pretty.removeKeys lc).context ≠ [] := by
    intro h0
    rw [h0] at hl
    simp only [JSValue.descend] at h
    rw [← hl] at h
    simp at h
  simp only [JSValue.descend, collectLogs_lookup_context _ _ hne, hl]
  simpa only [JSValue.descend] using h

/-- An object in which some path can be followed is not empty. -/
theorem isObjectEmpty_of_descend (logs : JSObject) (s : Step) (rest : List Step) (x : JSValue)
    (h : (JSValue.obj logs).descend (s :: rest) = some x) : utils.isObjectEmpty logs = false := by
  cases logs with
  | nil => cases s <;> simp [JSValue.descend] at h
  | cons p ps => simp [utils.isObjectEmpty, JSObject.keys]

/-- The only exceptions of `writePretty` are those of the header. -/
theorem writePretty_faults (pk : Packages) (lc : LogContext) (opts : JSValue) (e : Fault)
    (h : (pretty.writePretty pk lc opts).1 = .error e) :
    e = .readOfNullish "file_name" ∨ e = .readOfNullish "color" ∨ e = .notAFunction "config.color" := by
  obtain ⟨body, hbody⟩ := getLogs_ok pk lc
  unfold pretty.writePretty at h
  simp only [hbody, pretty.fileName] at h
  cases hnf : pretty.flag opts "noFilename" <;> cases hom : pretty.flag opts "onlyMessage" <;>
    cases hlv : lookupLevel pk.chalk lc.level <;>
    cases hsrc : JSObject.get lc.context "source" <;>
    simp [hnf, hom, hlv, hsrc, JSValue.getMember] at h <;> simp [← h]

/-- C3: a BigInt anywhere in `event` or `context` never makes `_getLogs` or
`writePretty` throw; each BigInt that is rendered (one under a key that is not
removed, at any depth in objects and arrays) reaches the formatter as the
string of its decimal digits, so that 2^63 is "9223372036854775808"; and every
value without a BigInt reaches the formatter as ordinary `JSON.stringify`
followed by `JSON.parse` gives it. -/
theorem bigint_rendering (pk : Packages) (lc : LogContext) (opts : JSValue) :
    (∃ body, (pretty._getLogs pk lc).1 = .ok body) ∧
    (∀ e, (pretty.writePretty pk lc opts).1 = .error e → e ≠ .bigIntNotSerializable) ∧
    (∃ logsSafe,
      pretty.serializeAndParse
        (pretty.collectLogs (pretty.removeKeys lc).event (pretty.removeKeys lc).context)
        = .ok logsSafe ∧
      (∀ k rest n, k ≠ "http_request" →
        (JSValue.obj lc.event).descend (.key k :: rest) = some (.bigint n) →
        (pretty._getLogs pk lc).1 = .ok (pk.format logsSafe "space" 2 ++ "\n") ∧
        logsSafe.descend (.key "event" :: .key k :: rest) = some (.str (toString n))) ∧
      (∀ k rest n, k ∉ ["runtime", "source", "system"] →
        (JSValue.obj lc.context).descend (.key k :: rest) = some (.bigint n) →
        (pretty._getLogs pk lc).1 = .ok (pk.format logsSafe "space" 2 ++ "\n") ∧
        logsSafe.descend (.key "context" :: .key k :: rest) = some (.str (toString n))) ∧
      (∀ path x j,
        (JSValue.obj (pretty.collectLogs (pretty.removeKeys lc).event
          (pretty.removeKeys lc).context)).descend path = some x →
        x.hasBigInt = false → JSON.stringify x = .ok (some j) →
        logsSafe.descend path = some (Json.toValue j))) ∧
    pretty.serializeAndParse [("event", .obj [("n", .bigint (2 ^ 63))])]
      = .ok (.obj [("event", .obj [("n", .str "9223372036854775808")])]) := by
  have hpath : ∀ (path : List Step) (x x2 : JSValue),
      (JSValue.obj (pretty.collectLogs (pretty.removeKeys lc).event
        (pretty.removeKeys lc).context)).descend path = some x →
      safeCopy x = some x2 →
      (JSValue.obj (safeCopyProps (pretty.collectLogs (pretty.removeKeys lc).event
        (pretty.removeKeys lc).context))).descend path = some x2 := by
    intro path x x2 h hx
    obtain ⟨w, hw, hd⟩ := descend_safeCopy path _ x x2 h hx
    simp only [safeCopy, Option.some.injEq] at hw
    rw [hw]; exact hd
  refine ⟨⟨_, getLogs_fst pk lc⟩, ?_, ⟨_, serializeAndParse_eq _, ?_, ?_, ?_⟩, ?_⟩
  · intro e he
    rcases writePretty_faults pk lc opts e he with h | h | h <;> simp [h]
  · intro k rest n hk h
    have hd := descend_logs_event lc k rest _ hk h
    refine ⟨?_, hpath _ _ _ hd (by simp [safeCopy])⟩
    rw [getLogs_fst, isObjectEmpty_of_descend _ _ _ _ hd]
    simp
  · intro k rest n hk h
    have hd := descend_logs_context lc k rest _ hk h
    refine ⟨?_, hpath _ _ _ hd (by simp [safeCopy])⟩
    rw [getLogs_fst, isObjectEmpty_of_descend _ _ _ _ hd]
    simp
  · intro path x j h hx hj
    exact hpath _ _ _ h (safeCopy_of_stringify x j hx hj)
  · rfl

/-- Witness of C3: the event of `diskFullBusy` holds the BigInt 2^63 under
`bytes`; it reaches the formatter as a string of digits. -/
theorem bigint_rendering_witness :
    ∃ logsSafe,
      (pretty._getLogs samplePackages diskFullBusy).1
        = .ok (samplePackages.format logsSafe "space" 2 ++ "\n") ∧
      logsSafe.descend [.key "event", .key "bytes"] = some (.str "9223372036854775808") := by
  obtain ⟨_, _, ⟨logsSafe, _, hev, _, _⟩, _⟩ := bigint_rendering samplePackages diskFullBusy .undefined
  exact ⟨logsSafe, hev "bytes" [] (2 ^ 63) (by decide) rfl⟩

/-- A successful call of `writePretty` had a registered level and a readable
file name (unless `noFilename` was set), and returned header, newline, body. -/
theorem writePretty_ok_inv (pk : Packages) (lc : LogContext) (opts : JSValue) (out : String)
    (h : (pretty.writePretty pk lc opts).1 = .ok out) :
    ∃ cfg name body,
      (LEVELS_CONFIG pk.chalk).lookup lc.level = some cfg ∧
      (pretty.flag opts "noFilename" = false → pretty.fileName lc = .ok name) ∧
      (if pretty.flag opts "onlyMessage" then Except.ok "" else (pretty._getLogs pk lc).1)
        = .ok body ∧
      out = headerLine pk cfg lc opts name ++ "\n" ++ body := by
  cases hl : (LEVELS_CONFIG pk.chalk).lookup lc.level with
  | none =>
    unfold pretty.writePretty at h
    simp only [lookupLevel, hl] at h
    by_cases hm : lc.level ∈ objectPrototypeMembers <;>
      cases hnf : pretty.flag opts "noFilename" <;> cases hfn : pretty.fileName lc <;>
      simp [hm, hnf, hfn] at h
  | some cfg =>
    have key : ∀ name, (pretty.flag opts "noFilename" = false → pretty.fileName lc = .ok name) →
        ∃ body, (if pretty.flag opts "onlyMessage" then Except.ok ""
          else (pretty._getLogs pk lc).1) = .ok body ∧
          out = headerLine pk cfg lc opts name ++ "\n" ++ body := by
      intro name hfile
      obtain ⟨logs, hlogs⟩ := getLogs_ok pk lc
      cases honly : pretty.flag opts "onlyMessage" with
      | true =>
        rw [writePretty_registered pk lc opts cfg name "" lc hl hfile (by simp [honly])] at h
        exact ⟨"", by simp, by simpa using h.symm⟩
      | false =>
        rw [writePretty_registered pk lc opts cfg name logs (pretty.removeKeys lc) hl hfile
          (by simp [honly, hlogs])] at h
        exact ⟨logs, by simp [hlogs], by simpa using h.symm⟩
    cases hnf : pretty.flag opts "noFilename" with
    | true =>
      obtain ⟨body, hb, ho⟩ := key .undefined (by simp [hnf])
      exact ⟨cfg, .undefined, body, rfl, by simp, hb, ho⟩
    | false =>
      cases hfn : pretty.fileName lc with
      | error e =>
        unfold pretty.writePretty at h
        simp [hnf, hfn] at h
      | ok name =>
        obtain ⟨body, hb, ho⟩ := key name (fun _ => hfn)
        exact ⟨cfg, name, body, rfl, fun _ => rfl, hb, ho⟩

theorem mem_keys_safeCopyProps (k : String) :
    ∀ ps : List (String × JSValue), k ∈ JSObject.keys (safeCopyProps ps) → k ∈ JSObject.keys ps
  | [], h => by simp [safeCopyProps, JSObject.keys] at h
  | (a, b) :: rest, h => by
    have ih := mem_keys_safeCopyProps k rest
    simp only [JSObject.keys, List.map_cons, List.mem_cons] at ih ⊢
    cases hb : safeCopy b with
    | none =>
      simp only [safeCopyProps, hb] at h
      exact Or.inr (ih h)
    | some w =>
      simp only [safeCopyProps, hb, JSObject.keys, List.map_cons, List.mem_cons] at h
      exact h.imp id ih

/-- What the formatter receives under `context` is the copy of the filtered
context. -/
theorem logsSafe_context (event context ctx : JSObject)
    (h : (JSValue.obj (safeCopyProps (pretty.collectLogs event context))).descend [.key "context"]
      = some (.obj ctx)) : ctx = safeCopyProps context := by
  cases event <;> cases context <;>
    simp [pretty.collectLogs, utils.isObjectEmpty, JSObject.keys, JSObject.set, safeCopyProps,
      safeCopy, JSValue.descend, List.lookup_cons] at h <;>
    simp [← h, safeCopyProps]

/-- What the formatter receives under `event` is the copy of the filtered
event. -/
theorem logsSafe_event (event context ev : JSObject)
    (h : (JSValue.obj (safeCopyProps (pretty.collectLogs event context))).descend [.key "event"]
      = some (.obj ev)) : ev = safeCopyProps event := by
  cases event <;> cases context <;>
    simp [pretty.collectLogs, utils.isObjectEmpty, JSObject.keys, JSObject.set, safeCopyProps,
      safeCopy, JSValue.descend, List.lookup_cons] at h <;>
    simp [← h, safeCopyProps]

/-- C4: the body of `_getLogs` is empty or is the formatting of a structure
whose `context` sub-object has none of the keys `runtime`, `source` and
`system` and whose `event` sub-object has no key `http_request`, whatever keys
the input has; a call of `writePretty` without `onlyMessage` ends with this
body. -/
theorem reserved_keys_not_rendered (pk : Packages) (lc : LogContext) :
    ∃ logsSafe body,
      pretty.serializeAndParse
        (pretty.collectLogs (pretty.removeKeys lc).event (pretty.removeKeys lc).context)
        = .ok logsSafe ∧
      (pretty._getLogs pk lc).1 = .ok body ∧
      (body = "" ∨ body = pk.format logsSafe "space" 2 ++ "\n") ∧
      (∀ ctx, logsSafe.descend [.key "context"] = some (.obj ctx) →
        "runtime" ∉ JSObject.keys ctx ∧ "source" ∉ JSObject.keys ctx ∧
        "system" ∉ JSObject.keys ctx) ∧
      (∀ ev, logsSafe.descend [.key "event"] = some (.obj ev) →
        "http_request" ∉ JSObject.keys ev) ∧
      (∀ opts out, pretty.flag opts "onlyMessage" = false →
        (pretty.writePretty pk lc opts).1 = .ok out →
        ∃ cfg name, out = headerLine pk cfg lc opts name ++ "\n" ++ body) := by
  refine ⟨_, _, serializeAndParse_eq _, getLogs_fst pk lc, ?_, ?_, ?_, ?_⟩
  · split
    · exact Or.inl rfl
    · exact Or.inr rfl
  · intro ctx h
    have hc := logsSafe_context _ _ _ h
    subst hc
    rw [removeKeys_context]
    refine ⟨fun hm => ?_, fun hm => ?_, fun hm => ?_⟩
    · exact not_mem_keys_delete "runtime" _
        (mem_keys_delete _ _ _ (mem_keys_delete _ _ _ (mem_keys_safeCopyProps _ _ hm)))
    · exact not_mem_keys_delete "source" _ (mem_keys_delete _ _ _ (mem_keys_safeCopyProps _ _ hm))
    · exact not_mem_keys_delete "system" _ (mem_keys_safeCopyProps _ _ hm)
  · intro ev h
    have he := logsSafe_event _ _ _ h
    subst he
    rw [removeKeys_event]
    exact fun hm => not_mem_keys_delete "http_request" _ (mem_keys_safeCopyProps _ _ hm)
  · intro opts out honly hout
    obtain ⟨cfg, name, body, _, _, hb, ho⟩ := writePretty_ok_inv pk lc opts out hout
    simp only [honly, getLogs_fst, Bool.false_eq_true, if_false, Except.ok.injEq] at hb
    exact ⟨cfg, name, by rw [ho, ← hb]⟩

/-- Witness of C4: the context of `diskFullBusy` has the reserved key `source`;
what the formatter receives under `context` has not. -/
theorem reserved_keys_not_rendered_witness :
    "source" ∈ JSObject.keys diskFullBusy.context ∧
    ∃ logsSafe,
      pretty.serializeAndParse (pretty.collectLogs (pretty.removeKeys diskFullBusy).event
        (pretty.removeKeys diskFullBusy).context) = .ok logsSafe ∧
      logsSafe.descend [.key "context"] = some (.obj [("user", .str "ada")]) ∧
      "source" ∉ JSObject.keys [("user", .str "ada")] := by
  refine ⟨by decide, ?_⟩
  obtain ⟨logsSafe, _, h1, _, _, hctx, _, _⟩ := reserved_keys_not_rendered samplePackages diskFullBusy
  have h2 : pretty.serializeAndParse (pretty.collectLogs (pretty.removeKeys diskFullBusy).event
      (pretty.removeKeys diskFullBusy).context)
      = .ok (.obj [("event", .obj [("bytes", .str "9223372036854775808")]),
          ("context", .obj [("user", .str "ada")])]) := rfl
  rw [h2] at h1
  simp only [Except.ok.injEq] at h1
  have h3 : logsSafe.descend [.key "context"] = some (.obj [("user", .str "ada")]) := by
    rw [← h1]; rfl
  exact ⟨logsSafe, by rw [h2, h1], h3, (hctx _ h3).2.1⟩

/-- When every key of `event` and of `context` is removed, nothing is left. -/
theorem removeKeys_empty (lc : LogContext)
    (hev : ∀ k ∈ JSObject.keys lc.event, k = "http_request")
    (hctx : ∀ k ∈ JSObject.keys lc.context, k ∈ ["runtime", "source", "system"]) :
    (pretty.removeKeys lc).event = [] ∧ (pretty.removeKeys lc).context = [] := by
  constructor
  · rw [removeKeys_event, List.eq_nil_iff_forall_not_mem]
    intro p hp
    simp only [JSObject.delete, List.mem_filter, bne_iff_ne, ne_eq] at hp
    exact hp.2 (hev p.1 (List.mem_map_of_mem Prod.fst hp.1))
  · rw [removeKeys_context, List.eq_nil_iff_forall_not_mem]
    intro p hp
    simp only [JSObject.delete, List.mem_filter, bne_iff_ne, ne_eq] at hp
    have := hctx p.1 (List.mem_map_of_mem Prod.fst hp.1.1.1)
    simp only [List.mem_cons, List.not_mem_nil, or_false] at this
    rcases this with h | h | h
    · exact hp.1.1.2 h
    · exact hp.1.2 h
    · exact hp.2 h

/-- C5: when `event` has no key other than `http_request` and `context` none
other than `runtime`, `source` and `system`, `_getLogs` returns the empty
string and `writePretty` returns the header line and its newline only. -/
theorem empty_body (pk : Packages) (lc : LogContext)
    (hev : ∀ k ∈ JSObject.keys lc.event, k = "http_request")
    (hctx : ∀ k ∈ JSObject.keys lc.context, k ∈ ["runtime", "source", "system"]) :
    (pretty._getLogs pk lc).1 = .ok "" ∧
    ∀ opts cfg name, (LEVELS_CONFIG pk.chalk).lookup lc.level = some cfg →
      (pretty.flag opts "noFilename" = false → pretty.fileName lc = .ok name) →
      (pretty.writePretty pk lc opts).1 = .ok (headerLine pk cfg lc opts name ++ "\n") := by
  have hb : (pretty._getLogs pk lc).1 = .ok "" := by
    rw [getLogs_fst, (removeKeys_empty lc hev hctx).1, (removeKeys_empty lc hev hctx).2]
    rfl
  refine ⟨hb, fun opts cfg name hcfg hfile => ?_⟩
  obtain ⟨logs, hlogs⟩ := getLogs_ok pk lc
  rw [hlogs] at hb
  simp only [Except.ok.injEq] at hb
  subst hb
  cases honly : pretty.flag opts "onlyMessage" with
  | true =>
    rw [writePretty_registered pk lc opts cfg name "" lc hcfg hfile (by simp [honly])]
    simp
  | false =>
    rw [writePretty_registered pk lc opts cfg name "" (pretty.removeKeys lc) hcfg hfile
      (by simp [honly, hlogs])]
    simp

/-- Witness of C5: level error, message "disk full", context with `source` and
`system` only, empty event, default options. -/
theorem empty_body_witness :
    (∀ k ∈ JSObject.keys diskFull.event, k = "http_request") ∧
    (∀ k ∈ JSObject.keys diskFull.context, k ∈ ["runtime", "source", "system"]) ∧
    (pretty._getLogs samplePackages diskFull).1 = .ok "" ∧
    (pretty.writePretty samplePackages diskFull .undefined).1 =
      .ok (headerLine samplePackages ⟨ansiChalk.red, "■"⟩ diskFull .undefined (.str "disk.js")
        ++ "\n") :=
  ⟨by decide, by decide,
    (empty_body samplePackages diskFull (by decide) (by decide)).1,
    (empty_body samplePackages diskFull (by decide) (by decide)).2 .undefined
      ⟨ansiChalk.red, "■"⟩ (.str "disk.js") rfl (fun _ => rfl)⟩

/-- C6: when the level is not a key of the registry, `writePretty` throws and
returns no string, also for a level that names a member inherited from
`Object.prototype`; there is no default style. -/
theorem unregistered_level_faults (pk : Packages) (lc : LogContext) (opts : JSValue)
    (hlevel : (LEVELS_CONFIG pk.chalk).lookup lc.level = none) :
    ∃ e, (pretty.writePretty pk lc opts).1 = .error e := by
  cases hr : (pretty.writePretty pk lc opts).1 with
  | error e => exact ⟨e, rfl⟩
  | ok out =>
    obtain ⟨cfg, _, _, hcfg, _⟩ := writePretty_ok_inv pk lc opts out hr
    rw [hlevel] at hcfg
    cases hcfg

/-- Witness of C6: the levels "constructor" and "verbose". -/
theorem unregistered_level_faults_witness :
    (LEVELS_CONFIG samplePackages.chalk).lookup constructorLevel.level = none ∧
    (∃ e, (pretty.writePretty samplePackages constructorLevel .undefined).1 = .error e) ∧
    (∃ e, (pretty.writePretty samplePackages verboseLevel .undefined).1 = .error e) :=
  ⟨rfl, unregistered_level_faults samplePackages constructorLevel .undefined rfl,
    unregistered_level_faults samplePackages verboseLevel .undefined rfl⟩

/-- Counterexample to C7: `context.source` is an object without a `file_name`
key and no option is set, yet `writePretty` returns a string; the file name is
shown as "undefined". -/
theorem absent_file_name_no_fault :
    JSObject.get sourceWithoutFileName.context "source" = .obj [("line", .num 7)] ∧
    "file_name" ∉ JSObject.keys [("line", .num 7)] ∧
    pretty.flag .undefined "noFilename" = false ∧
    (pretty.writePretty samplePackages sourceWithoutFileName .undefined).1 =
      .ok ("\x1b[37m[2024-01-01T00:00:00Z] \x1b[39m\x1b[34mℹ info\x1b[39m" ++
        " \x1b[4m\x1b[32mundefined\x1b[39m\x1b[24m - \x1b[34mstarted\x1b[39m\n") :=
  ⟨rfl, by decide, rfl, rfl⟩

/-- C7, amended: with `noFilename` false or absent, `writePretty` throws at
once, leaving the log context as it was, when `context.source` is absent
(undefined) or null; when `context.source` is an object without a `file_name`
key and the level is registered, nothing is thrown and the filename segment is
a space and `underlineGreen("undefined")`. -/
theorem absent_source_faults (pk : Packages) (lc : LogContext) (opts : JSValue)
    (hnf : pretty.flag opts "noFilename" = false) :
    ((JSObject.get lc.context "source" = .undefined ∨ JSObject.get lc.context "source" = .null) →
      pretty.writePretty pk lc opts = (.error (.readOfNullish "file_name"), lc)) ∧
    (∀ props cfg, JSObject.get lc.context "source" = .obj props →
      props.lookup "file_name" = none →
      (LEVELS_CONFIG pk.chalk).lookup lc.level = some cfg →
      ∃ body, (pretty.writePretty pk lc opts).1 =
        .ok (timestampSegment pk lc opts ++ levelSegment cfg lc ++
          (" " ++ pk.chalk.underlineGreen "undefined") ++ " - " ++ messageSegment cfg lc ++
          "\n" ++ body)) := by
  constructor
  · intro h
    unfold pretty.writePretty
    rcases h with h | h <;> simp [hnf, pretty.fileName, h, JSValue.getMember]
  · intro props cfg hsrc hfn hcfg
    obtain ⟨logs, hlogs⟩ := getLogs_ok pk lc
    have hfile : pretty.flag opts "noFilename" = false → pretty.fileName lc = .ok .undefined := by
      intro _
      rw [pretty.fileName, hsrc]
      simp [JSValue.getMember, JSObject.get, hfn]
    cases honly : pretty.flag opts "onlyMessage" with
    | true =>
      refine ⟨"", ?_⟩
      rw [writePretty_registered pk lc opts cfg .undefined "" lc hcfg hfile (by simp [honly])]
      simp [headerLine, filenameSegment, hnf, JSValue.toJSString]
    | false =>
      refine ⟨logs, ?_⟩
      rw [writePretty_registered pk lc opts cfg .undefined logs (pretty.removeKeys lc) hcfg hfile
        (by simp [honly, hlogs])]
      simp [headerLine, filenameSegment, hnf, JSValue.toJSString]

/-- Witness of C7, amended: a record without `context.source`, default
options. -/
theorem absent_source_faults_witness :
    pretty.flag .undefined "noFilename" = false ∧
    JSObject.get noSource.context "source" = .undefined ∧
    pretty.writePretty samplePackages noSource .undefined
      = (.error (.readOfNullish "file_name"), noSource) :=
  ⟨rfl, rfl, (absent_source_faults samplePackages noSource .undefined rfl).1 (Or.inl rfl)⟩

theorem delete_comm (o : JSObject) (a b : String) :
    JSObject.delete (JSObject.delete o a) b = JSObject.delete (JSObject.delete o b) a := by
  simp only [JSObject.delete, List.filter_filter]
  congr 1
  funext p
  exact Bool.and_comm _ _

/-- The filtered context is a function of the context without `source`. -/
theorem removeKeys_context_source (lc : LogContext) :
    (pretty.removeKeys lc).context =
      JSObject.delete (JSObject.delete (JSObject.delete lc.context "source") "runtime") "system" := by
  rw [removeKeys_context, delete_comm lc.context "runtime" "source"]

/-- C8: with `noFilename` set and a registered level, `writePretty` throws
nothing even when `context.source` is absent, the header is timestamp, level
segment, " - " and message segment, and `context.source` has no influence:
two log contexts that differ only in `context.source` give the same result. -/
theorem noFilename_ignores_source (pk : Packages) (lc1 lc2 : LogContext) (opts : JSValue)
    (hlevel : lc1.level ∈ severities)
    (hnf : pretty.flag opts "noFilename" = true)
    (h1 : lc2.level = lc1.level) (h2 : lc2.dt = lc1.dt) (h3 : lc2.message = lc1.message)
    (h4 : lc2.event = lc1.event)
    (h5 : JSObject.delete lc2.context "source" = JSObject.delete lc1.context "source") :
    (pretty.writePretty pk lc2 opts).1 = (pretty.writePretty pk lc1 opts).1 ∧
    ∃ cfg body,
      (LEVELS_CONFIG pk.chalk).lookup lc1.level = some cfg ∧
      (if pretty.flag opts "onlyMessage" then Except.ok "" else (pretty._getLogs pk lc1).1)
        = .ok body ∧
      (pretty.writePretty pk lc1 opts).1 =
        .ok (timestampSegment pk lc1 opts ++ levelSegment cfg lc1 ++ " - " ++
          messageSegment cfg lc1 ++ "\n" ++ body) := by
  obtain ⟨cfg, hcfg⟩ := (lookup_isSome_iff pk.chalk lc1.level).mpr hlevel
  have hcfg2 : (LEVELS_CONFIG pk.chalk).lookup lc2.level = some cfg := by rw [h1]; exact hcfg
  have hlogs : (pretty._getLogs pk lc2).1 = (pretty._getLogs pk lc1).1 := by
    rw [getLogs_fst, getLogs_fst, removeKeys_context_source lc2, removeKeys_context_source lc1,
      removeKeys_event lc2, removeKeys_event lc1, h4, h5]
  have hhead : headerLine pk cfg lc2 opts .undefined = headerLine pk cfg lc1 opts .undefined := by
    simp [headerLine, timestampSegment, levelSegment, messageSegment, h1, h2, h3]
  have hres : ∀ lc : LogContext, (LEVELS_CONFIG pk.chalk).lookup lc.level = some cfg →
      ∀ body, (if pretty.flag opts "onlyMessage" then Except.ok ""
        else (pretty._getLogs pk lc).1) = .ok body →
      (pretty.writePretty pk lc opts).1 = .ok (headerLine pk cfg lc opts .undefined ++ "\n" ++ body) := by
    intro lc hc body hb
    obtain ⟨logs, hl⟩ := getLogs_ok pk lc
    cases honly : pretty.flag opts "onlyMessage" with
    | true =>
      simp only [honly, if_true, Except.ok.injEq] at hb
      rw [writePretty_registered pk lc opts cfg .undefined "" lc hc (by simp [hnf])
        (by simp [honly]), hb]
    | false =>
      simp only [honly, hl, Bool.false_eq_true, if_false, Except.ok.injEq] at hb
      rw [writePretty_registered pk lc opts cfg .undefined logs (pretty.removeKeys lc) hc
        (by simp [hnf]) (by simp [honly, hl]), hb]
  obtain ⟨logs, hl⟩ := getLogs_ok pk lc1
  have hb1 : (if pretty.flag opts "onlyMessage" then Except.ok "" else (pretty._getLogs pk lc1).1)
      = .ok (if pretty.flag opts "onlyMessage" then "" else logs) := by
    cases pretty.flag opts "onlyMessage" <;> simp [hl]
  refine ⟨?_, cfg, _, hcfg, hb1, ?_⟩
  · rw [hres lc1 hcfg _ hb1, hres lc2 hcfg2 _ (by rw [hlogs]; exact hb1), hhead]
  · rw [hres lc1 hcfg _ hb1]
    simp [headerLine, filenameSegment, hnf]

/-- Witness of C8: `noSource` and `diskFull` differ only in `context.source`. -/
theorem noFilename_ignores_source_witness :
    diskFull.level ∈ severities ∧
    pretty.flag (.obj [("noFilename", .bool true)]) "noFilename" = true ∧
    JSObject.get noSource.context "source" = .undefined ∧
    JSObject.get diskFull.context "source" ≠ .undefined ∧
    (pretty.writePretty samplePackages noSource (.obj [("noFilename", .bool true)])).1
      = (pretty.writePretty samplePackages diskFull (.obj [("noFilename", .bool true)])).1 :=
  ⟨by decide, rfl, rfl, by simp [diskFull, JSObject.get, List.lookup],
    (noFilename_ignores_source samplePackages diskFull noSource (.obj [("noFilename", .bool true)])
      (by decide) rfl rfl rfl rfl rfl rfl).1⟩

/-- C9: with `noTimestamp` set the timestamp segment is empty and the result
does not depend on `dt`: log contexts that differ only in `dt` give the same
result, and an output starts with the level segment. -/
theorem noTimestamp_ignores_dt (pk : Packages) (lc : LogContext) (opts : JSValue) (dt2 : String)
    (hnt : pretty.flag opts "noTimestamp" = true) :
    (pretty.writePretty pk { lc with dt := dt2 } opts).1 = (pretty.writePretty pk lc opts).1 ∧
    timestampSegment pk lc opts = "" ∧
    ∀ out, (pretty.writePretty pk lc opts).1 = .ok out →
      ∃ cfg name body,
        (LEVELS_CONFIG pk.chalk).lookup lc.level = some cfg ∧
        out = levelSegment cfg lc ++ filenameSegment pk opts name ++ " - " ++
          messageSegment cfg lc ++ "\n" ++ body := by
  refine ⟨?_, by simp [timestampSegment, hnt], ?_⟩
  · have hg : (pretty._getLogs pk { lc with dt := dt2 }).1 = (pretty._getLogs pk lc).1 := by
      rw [getLogs_fst, getLogs_fst]; rfl
    obtain ⟨b1, hb1⟩ := getLogs_ok pk lc
    obtain ⟨b2, hb2⟩ := getLogs_ok pk { lc with dt := dt2 }
    rw [hb1, hb2] at hg
    simp only [Except.ok.injEq] at hg
    subst hg
    unfold pretty.writePretty
    simp only [hnt, hb1, hb2, pretty.fileName, if_true]
    cases pretty.flag opts "noFilename" <;> cases pretty.flag opts "onlyMessage" <;>
      cases JSValue.getMember (JSObject.get lc.context "source") "file_name" <;>
      cases lookupLevel pk.chalk lc.level <;> simp
  · intro out hout
    obtain ⟨cfg, name, body, hcfg, _, _, ho⟩ := writePretty_ok_inv pk lc opts out hout
    refine ⟨cfg, name, body, hcfg, ?_⟩
    rw [ho]
    simp [headerLine, timestampSegment, hnt]

/-- Witness of C9: the record of section 8 under two timestamps. -/
theorem noTimestamp_ignores_dt_witness :
    pretty.flag (.obj [("noTimestamp", .bool true)]) "noTimestamp" = true ∧
    (pretty.writePretty samplePackages { diskFull with dt := "1999-12-31T23:59:59Z" }
        (.obj [("noTimestamp", .bool true)])).1
      = (pretty.writePretty samplePackages diskFull (.obj [("noTimestamp", .bool true)])).1 :=
  ⟨rfl, (noTimestamp_ignores_dt samplePackages diskFull (.obj [("noTimestamp", .bool true)])
    "1999-12-31T23:59:59Z" rfl).1⟩

theorem occursIn_append (needle hay before after : String) (h : occursIn needle hay) :
    occursIn needle (before ++ hay ++ after) := by
  obtain ⟨a, b, rfl⟩ := h
  exact ⟨before ++ a, b ++ after, by simp [String.append_assoc]⟩

/-- The text of the level segment is plain for each of the eight severities. -/
theorem plainText_level (chalk : Chalk) (level : String) (cfg : LevelConfig)
    (h : (LEVELS_CONFIG chalk).lookup level = some cfg) :
    (level, cfg) ∈ LEVELS_CONFIG chalk ∧ plainText (cfg.icon ++ " " ++ level) = true := by
  have hmem := (lookup_isSome_iff chalk level).mp ⟨cfg, h⟩
  simp only [severities, List.mem_cons, List.not_mem_nil, or_false] at hmem
  rcases hmem with hl | hl | hl | hl | hl | hl | hl | hl <;> subst hl <;>
    · simp [LEVELS_CONFIG, List.lookup] at h
      subst h
      exact ⟨by simp [LEVELS_CONFIG], by show plainText _ = true; simp only []; decide⟩

/-- C10: the registry has exactly one entry for each of the eight severities
and no other key; and for each severity and every options value the header
line that `writePretty` returns contains the icon of the severity, a space and
the level name (chalk styles keep a plain text inside the styled text). -/
theorem registry_and_header (pk : Packages) (lc : LogContext) (opts : JSValue) (name : JSValue)
    (hlevel : lc.level ∈ severities)
    (hfile : pretty.flag opts "noFilename" = false → pretty.fileName lc = .ok name)
    (hstyle : ∀ p ∈ LEVELS_CONFIG pk.chalk, ∀ s, plainText s = true → occursIn s (p.2.color s)) :
    (LEVELS_CONFIG pk.chalk).map (fun p => (p.1, p.2.icon)) =
      [("emergency", "●"), ("alert", "◆"), ("critical", "✖"), ("error", "■"),
        ("warn", "⚠"), ("notice", "▶"), ("info", "ℹ"), ("debug", "★")] ∧
    (LEVELS_CONFIG pk.chalk).map Prod.fst = severities ∧ severities.Nodup ∧
    ∃ cfg body,
      (LEVELS_CONFIG pk.chalk).lookup lc.level = some cfg ∧
      (pretty.writePretty pk lc opts).1 = .ok (headerLine pk cfg lc opts name ++ "\n" ++ body) ∧
      occursIn (cfg.icon ++ " " ++ lc.level) (headerLine pk cfg lc opts name) := by
  refine ⟨rfl, rfl, by decide, ?_⟩
  obtain ⟨cfg, hcfg⟩ := (lookup_isSome_iff pk.chalk lc.level).mpr hlevel
  obtain ⟨logs, hlogs⟩ := getLogs_ok pk lc
  obtain ⟨hmem, hplain⟩ := plainText_level pk.chalk lc.level cfg hcfg
  have hocc : occursIn (cfg.icon ++ " " ++ lc.level) (headerLine pk cfg lc opts name) := by
    have := occursIn_append _ _ (timestampSegment pk lc opts)
      (filenameSegment pk opts name ++ " - " ++ messageSegment cfg lc)
      (hstyle (lc.level, cfg) hmem _ hplain)
    simpa [headerLine, levelSegment, String.append_assoc] using this
  cases honly : pretty.flag opts "onlyMessage" with
  | true =>
    exact ⟨cfg, "", hcfg,
      by rw [writePretty_registered pk lc opts cfg name "" lc hcfg hfile (by simp [honly])], hocc⟩
  | false =>
    exact ⟨cfg, logs, hcfg,
      by rw [writePretty_registered pk lc opts cfg name logs (pretty.removeKeys lc) hcfg hfile
        (by simp [honly, hlogs])], hocc⟩

theorem occursIn_ansi (a b s : String) : occursIn s (ansi a b s) :=
  ⟨"\x1b[" ++ a ++ "m", "\x1b[" ++ b ++ "m", by simp [ansi, String.append_assoc]⟩

/-- The styles of `ansiChalk` keep the text inside the styled text. -/
theorem ansiChalk_keeps_text :
    ∀ p ∈ LEVELS_CONFIG ansiChalk, ∀ s, plainText s = true → occursIn s (p.2.color s) := by
  intro p hp s _
  simp only [LEVELS_CONFIG, List.mem_cons, List.not_mem_nil, or_false] at hp
  rcases hp with h | h | h | h | h | h | h | h <;> subst h <;>
    first
      | exact occursIn_ansi _ _ s
      | exact ⟨"\x1b[" ++ "31" ++ "m" ++ ("\x1b[" ++ "4" ++ "m"),
          "\x1b[" ++ "24" ++ "m" ++ ("\x1b[" ++ "39" ++ "m"),
          by simp only [ansiChalk, ansi, String.append_assoc]⟩

/-- Witness of C10: the record of section 8 with default options. -/
theorem registry_and_header_witness :
    diskFull.level ∈ severities ∧
    ∃ cfg body,
      (LEVELS_CONFIG samplePackages.chalk).lookup diskFull.level = some cfg ∧
      (pretty.writePretty samplePackages diskFull .undefined).1
        = .ok (headerLine samplePackages cfg diskFull .undefined (.str "disk.js") ++ "\n" ++ body) ∧
      occursIn (cfg.icon ++ " " ++ diskFull.level)
        (headerLine samplePackages cfg diskFull .undefined (.str "disk.js")) :=
  ⟨by decide,
    (registry_and_header samplePackages diskFull .undefined (.str "disk.js") (by decide)
      (fun _ => rfl) ansiChalk_keeps_text).2.2.2⟩

/-! ## Lemmas on the log context after a call -/

/-- A call of `writePretty` that throws leaves the log context as it was. -/
theorem writePretty_error_snd (pk : Packages) (lc : LogContext) (opts : JSValue) (e : Fault)
    (h : (pretty.writePretty pk lc opts).1 = .error e) :
    (pretty.writePretty pk lc opts).2 = lc := by
  obtain ⟨body, hbody⟩ := getLogs_ok pk lc
  unfold pretty.writePretty at h ⊢
  simp only [hbody] at h ⊢
  cases hnf : pretty.flag opts "noFilename" <;> cases hom : pretty.flag opts "onlyMessage" <;>
    cases hlv : lookupLevel pk.chalk lc.level <;> cases hfn : pretty.fileName lc <;>
    simp [hnf, hom, hlv, hfn] at h ⊢

/-- The log context after a call of `writePretty` that returns: untouched
under `onlyMessage`, filtered otherwise. -/
theorem writePretty_ok_snd (pk : Packages) (lc : LogContext) (opts : JSValue) (out : String)
    (h : (pretty.writePretty pk lc opts).1 = .ok out) :
    (pretty.writePretty pk lc opts).2 =
      if pretty.flag opts "onlyMessage" then lc else pretty.removeKeys lc := by
  obtain ⟨cfg, name, _, hcfg, hfile, _, _⟩ := writePretty_ok_inv pk lc opts out h
  obtain ⟨logs, hlogs⟩ := getLogs_ok pk lc
  cases honly : pretty.flag opts "onlyMessage" with
  | true =>
    rw [writePretty_registered pk lc opts cfg name "" lc hcfg hfile (by simp [honly])]
    simp
  | false =>
    rw [writePretty_registered pk lc opts cfg name logs (pretty.removeKeys lc) hcfg hfile
      (by simp [honly, hlogs])]
    simp

/-- C11: a call of `writePretty` with `onlyMessage` set leaves the log context,
its event and its context included, exactly as it was, so that a second call
on the same log context with the same options gives the same result. -/
theorem onlyMessage_no_mutation (pk : Packages) (lc : LogContext) (opts : JSValue)
    (honly : pretty.flag opts "onlyMessage" = true) :
    (pretty.writePretty pk lc opts).2 = lc ∧
    pretty.writePretty pk (pretty.writePretty pk lc opts).2 opts = pretty.writePretty pk lc opts := by
  have h : (pretty.writePretty pk lc opts).2 = lc := by
    cases hr : (pretty.writePretty pk lc opts).1 with
    | error e => exact writePretty_error_snd pk lc opts e hr
    | ok out => rw [writePretty_ok_snd pk lc opts out hr, honly]; rfl
  exact ⟨h, by rw [h]⟩

/-- Witness of C11: a record with reserved keys, `onlyMessage` set. -/
theorem onlyMessage_no_mutation_witness :
    pretty.flag (.obj [("onlyMessage", .bool true)]) "onlyMessage" = true ∧
    (pretty.writePretty samplePackages diskFullBusy (.obj [("onlyMessage", .bool true)])).2
      = diskFullBusy ∧
    pretty.writePretty samplePackages
        (pretty.writePretty samplePackages diskFullBusy (.obj [("onlyMessage", .bool true)])).2
        (.obj [("onlyMessage", .bool true)])
      = pretty.writePretty samplePackages diskFullBusy (.obj [("onlyMessage", .bool true)]) :=
  ⟨rfl, onlyMessage_no_mutation samplePackages diskFullBusy (.obj [("onlyMessage", .bool true)]) rfl⟩

/-- The three deletes on `context` as one filter. -/
theorem removeKeys_context_filter (lc : LogContext) :
    (pretty.removeKeys lc).context =
      lc.context.filter (fun p => p.1 != "runtime" && p.1 != "source" && p.1 != "system") := by
  rw [removeKeys_context]
  simp only [JSObject.delete, List.filter_filter]
  congr 1
  funext p
  cases (p.1 != "runtime") <;> cases (p.1 != "source") <;> cases (p.1 != "system") <;> rfl

/-- C12: after a call of `writePretty` without `onlyMessage` that returns, the
log context differs from the one before only in that `context` has lost the
keys `runtime`, `source` and `system` and `event` the key `http_request`:
level, timestamp and message are the same, and every other key of `context`
and `event` is still there, in place, with its value.  (The options are only
read: they are no part of the state that a call can change.) -/
theorem successful_call_frame (pk : Packages) (lc : LogContext) (opts : JSValue) (out : String)
    (honly : pretty.flag opts "onlyMessage" = false)
    (hok : (pretty.writePretty pk lc opts).1 = .ok out) :
    (pretty.writePretty pk lc opts).2.level = lc.level ∧
    (pretty.writePretty pk lc opts).2.dt = lc.dt ∧
    (pretty.writePretty pk lc opts).2.message = lc.message ∧
    (pretty.writePretty pk lc opts).2.event
      = lc.event.filter (fun p => p.1 != "http_request") ∧
    (pretty.writePretty pk lc opts).2.context
      = lc.context.filter (fun p => p.1 != "runtime" && p.1 != "source" && p.1 != "system") ∧
    (∀ k, k ≠ "http_request" →
      (pretty.writePretty pk lc opts).2.event.lookup k = lc.event.lookup k) ∧
    (∀ k, k ∉ ["runtime", "source", "system"] →
      (pretty.writePretty pk lc opts).2.context.lookup k = lc.context.lookup k) := by
  have hs : (pretty.writePretty pk lc opts).2 = pretty.removeKeys lc := by
    rw [writePretty_ok_snd pk lc opts out hok, honly]; rfl
  rw [hs]
  refine ⟨rfl, rfl, rfl, rfl, removeKeys_context_filter lc, ?_, ?_⟩
  · intro k hk
    rw [removeKeys_event]
    exact lookup_delete_ne k _ hk _
  · intro k hk
    simp only [List.mem_cons, List.not_mem_nil, or_false, not_or] at hk
    rw [removeKeys_context, lookup_delete_ne k _ hk.2.2, lookup_delete_ne k _ hk.2.1,
      lookup_delete_ne k _ hk.1]

/-- Witness of C12: `diskFullBusy` with default options; `user` and `bytes`
stay, `source` and `http_request` go. -/
theorem successful_call_frame_witness :
    pretty.flag .undefined "onlyMessage" = false ∧
    (∃ out, (pretty.writePretty samplePackages diskFullBusy .undefined).1 = .ok out) ∧
    (pretty.writePretty samplePackages diskFullBusy .undefined).2.event
      = [("bytes", .bigint (2 ^ 63))] ∧
    (pretty.writePretty samplePackages diskFullBusy .undefined).2.context
      = [("user", .str "ada")] :=
  ⟨rfl, ⟨_, rfl⟩,
    (successful_call_frame samplePackages diskFullBusy .undefined _ rfl rfl).2.2.2.1,
    (successful_call_frame samplePackages diskFullBusy .undefined _ rfl rfl).2.2.2.2.1⟩

theorem getLast_append_newline (pre : String) : (pre ++ "\n").data.getLast? = some '\n' := by
  have h : (pre ++ "\n").data = pre.data ++ ['\n'] := by
    rw [String.data_append]
  rw [h, List.getLast?_append]
  rfl

/-- C13: every string that `writePretty` returns ends with a newline: it is
the header line, a newline and the body, where the body is either empty (the
output then ends with the newline that ends the header line) or the formatted
block followed by a newline. -/
theorem output_ends_with_newline (pk : Packages) (lc : LogContext) (opts : JSValue) (out : String)
    (hok : (pretty.writePretty pk lc opts).1 = .ok out) :
    (∃ before, out = before ++ "\n") ∧
    out.data.getLast? = some '\n' ∧
    ∃ cfg name body,
      out = headerLine pk cfg lc opts name ++ "\n" ++ body ∧
      (body = "" ∨
        ∃ logsSafe,
          pretty.serializeAndParse
            (pretty.collectLogs (pretty.removeKeys lc).event (pretty.removeKeys lc).context)
            = .ok logsSafe ∧
          body = pk.format logsSafe "space" 2 ++ "\n") := by
  obtain ⟨cfg, name, body, _, _, hb, ho⟩ := writePretty_ok_inv pk lc opts out hok
  have hbody : body = "" ∨
      ∃ logsSafe,
        pretty.serializeAndParse
          (pretty.collectLogs (pretty.removeKeys lc).event (pretty.removeKeys lc).context)
          = .ok logsSafe ∧
        body = pk.format logsSafe "space" 2 ++ "\n" := by
    cases honly : pretty.flag opts "onlyMessage" with
    | true =>
      simp only [honly, if_true, Except.ok.injEq] at hb
      exact Or.inl hb.symm
    | false =>
      simp only [honly, getLogs_fst, Bool.false_eq_true, if_false, Except.ok.injEq] at hb
      by_cases he : utils.isObjectEmpty
          (pretty.collectLogs (pretty.removeKeys lc).event (pretty.removeKeys lc).context) = true
      · simp only [he, if_true] at hb
        exact Or.inl hb.symm
      · simp only [he, Bool.false_eq_true, if_false] at hb
        exact Or.inr ⟨_, serializeAndParse_eq _, hb.symm⟩
  have hend : ∃ before, out = before ++ "\n" := by
    rcases hbody with h | ⟨logsSafe, _, h⟩
    · exact ⟨headerLine pk cfg lc opts name, by rw [ho, h]; simp⟩
    · exact ⟨headerLine pk cfg lc opts name ++ "\n" ++ pk.format logsSafe "space" 2,
        by rw [ho, h]; simp only [String.append_assoc]⟩
  refine ⟨hend, ?_, cfg, name, body, ho, hbody⟩
  obtain ⟨before, hbefore⟩ := hend
  rw [hbefore]
  exact getLast_append_newline before

/-- Witness of C13: the output for the record of section 8. -/
theorem output_ends_with_newline_witness :
    (pretty.writePretty samplePackages diskFull .undefined).1
      = .ok ("\x1b[37m[2024-01-01T00:00:00Z] \x1b[39m\x1b[31m■ error\x1b[39m" ++
        " \x1b[4m\x1b[32mdisk.js\x1b[39m\x1b[24m - \x1b[31mdisk full\x1b[39m\n") ∧
    ("\x1b[37m[2024-01-01T00:00:00Z] \x1b[39m\x1b[31m■ error\x1b[39m" ++
        " \x1b[4m\x1b[32mdisk.js\x1b[39m\x1b[24m - \x1b[31mdisk full\x1b[39m\n").data.getLast?
      = some '\n' :=
  ⟨rfl, (output_ends_with_newline samplePackages diskFull .undefined _ rfl).2.1⟩

/-! ## Lemmas on the options -/

/-- The options influence `writePretty` through the three flags only. -/
theorem writePretty_congr_flags (pk : Packages) (lc : LogContext) (o1 o2 : JSValue)
    (h1 : pretty.flag o1 "noTimestamp" = pretty.flag o2 "noTimestamp")
    (h2 : pretty.flag o1 "noFilename" = pretty.flag o2 "noFilename")
    (h3 : pretty.flag o1 "onlyMessage" = pretty.flag o2 "onlyMessage") :
    pretty.writePretty pk lc o1 = pretty.writePretty pk lc o2 := by
  simp only [pretty.writePretty, h1, h2, h3]

theorem lookup_of_not_mem_keys (k : String) :
    ∀ o : JSObject, k ∉ JSObject.keys o → o.lookup k = none
  | [], _ => rfl
  | (a, b) :: rest, h => by
    simp only [JSObject.keys, List.map_cons, List.mem_cons, not_or] at h
    rw [List.lookup_cons, beq_false_of_ne h.1]
    exact lookup_of_not_mem_keys k rest h.2

/-- A flag is false when the options are not an object or lack the key. -/
theorem flag_absent (opts : JSValue) (key : String)
    (hopts : opts = .undefined ∨ opts = .null ∨ opts = .bool false ∨ opts = .bool true ∨
      ∃ props, opts = .obj props ∧ key ∉ JSObject.keys props) :
    pretty.flag opts key = false := by
  rcases hopts with h | h | h | h | ⟨props, h, hk⟩ <;> subst h
  · rfl
  · rfl
  · rfl
  · rfl
  · simp [pretty.flag, JSValue.getOptional, JSObject.get, lookup_of_not_mem_keys key props hk,
      JSValue.toBoolean]

/-- C14: the options are optional.  Called with undefined, null, false, true
or an object that has none of the three recognized keys, `writePretty` does
exactly what it does with the three flags false (timestamp shown, filename
shown, body rendered); the options matter through the three flags only, and
each flag is the truthiness of the value under its own key. -/
theorem options_optional (pk : Packages) (lc : LogContext) (opts : JSValue)
    (hopts : opts = .undefined ∨ opts = .null ∨ opts = .bool false ∨ opts = .bool true ∨
      ∃ props, opts = .obj props ∧ "noTimestamp" ∉ JSObject.keys props ∧
        "noFilename" ∉ JSObject.keys props ∧ "onlyMessage" ∉ JSObject.keys props) :
    pretty.writePretty pk lc opts = pretty.writePretty pk lc allFlagsFalse ∧
    (pretty.flag opts "noTimestamp" = false ∧ pretty.flag opts "noFilename" = false ∧
      pretty.flag opts "onlyMessage" = false) ∧
    (∀ o1 o2 : JSValue,
      pretty.flag o1 "noTimestamp" = pretty.flag o2 "noTimestamp" →
      pretty.flag o1 "noFilename" = pretty.flag o2 "noFilename" →
      pretty.flag o1 "onlyMessage" = pretty.flag o2 "onlyMessage" →
      pretty.writePretty pk lc o1 = pretty.writePretty pk lc o2) ∧
    (∀ (props : JSObject) (key : String),
      pretty.flag (.obj props) key = (JSObject.get props key).toBoolean) := by
  have hflag : ∀ key, key = "noTimestamp" ∨ key = "noFilename" ∨ key = "onlyMessage" →
      pretty.flag opts key = false := by
    intro key hkey
    apply flag_absent
    rcases hopts with h | h | h | h | ⟨props, h, h1, h2, h3⟩
    · exact Or.inl h
    · exact Or.inr (Or.inl h)
    · exact Or.inr (Or.inr (Or.inl h))
    · exact Or.inr (Or.inr (Or.inr (Or.inl h)))
    · refine Or.inr (Or.inr (Or.inr (Or.inr ⟨props, h, ?_⟩)))
      rcases hkey with hk | hk | hk <;> subst hk <;> assumption
  have h1 := hflag "noTimestamp" (Or.inl rfl)
  have h2 := hflag "noFilename" (Or.inr (Or.inl rfl))
  have h3 := hflag "onlyMessage" (Or.inr (Or.inr rfl))
  refine ⟨?_, ⟨h1, h2, h3⟩, fun o1 o2 => writePretty_congr_flags pk lc o1 o2, fun _ _ => rfl⟩
  exact writePretty_congr_flags pk lc opts allFlagsFalse (by rw [h1]; rfl) (by rw [h2]; rfl)
    (by rw [h3]; rfl)

/-- Witness of C14: the options `true`; and flags given by truthy values that
are not booleans count as set. -/
theorem options_optional_witness :
    pretty.writePretty samplePackages diskFullBusy (.bool true)
      = pretty.writePretty samplePackages diskFullBusy allFlagsFalse ∧
    pretty.flag truthyOptions "noTimestamp" = true ∧
    pretty.flag truthyOptions "noFilename" = false ∧
    pretty.flag truthyOptions "onlyMessage" = true ∧
    pretty.writePretty samplePackages diskFullBusy truthyOptions
      = pretty.writePretty samplePackages diskFullBusy
          (.obj [("noTimestamp", .bool true), ("onlyMessage", .bool true)]) :=
  ⟨(options_optional samplePackages diskFullBusy (.bool true)
      (Or.inr (Or.inr (Or.inr (Or.inl rfl))))).1,
    rfl, rfl, rfl,
    (options_optional samplePackages diskFullBusy (.bool true)
      (Or.inr (Or.inr (Or.inr (Or.inl rfl))))).2.2.1 _ _ rfl rfl rfl⟩

/-! ## Lemmas on the object `logs` -/

theorem mem_keys_delete_iff (k key : String) (o : JSObject) :
    k ∈ JSObject.keys (JSObject.delete o key) ↔ k ∈ JSObject.keys o ∧ k ≠ key := by
  simp only [JSObject.delete, JSObject.keys, List.mem_map, List.mem_filter, bne_iff_ne, ne_eq]
  constructor
  · rintro ⟨p, ⟨hp, hne⟩, rfl⟩
    exact ⟨⟨p, hp, rfl⟩, hne⟩
  · rintro ⟨⟨p, hp, rfl⟩, hne⟩
    exact ⟨p, ⟨hp, hne⟩, rfl⟩

/-- The keys of `logs`: `event` if the event is not empty, then `context` if
the context is not empty. -/
theorem collectLogs_keys (event context : JSObject) :
    JSObject.keys (pretty.collectLogs event context) =
      (if utils.isObjectEmpty event then [] else ["event"]) ++
        (if utils.isObjectEmpty context then [] else ["context"]) := by
  cases event <;> cases context <;>
    simp [pretty.collectLogs, utils.isObjectEmpty, JSObject.keys, JSObject.set]

theorem isObjectEmpty_false_iff (o : JSObject) :
    utils.isObjectEmpty o = false ↔ ∃ k, k ∈ JSObject.keys o := by
  cases o with
  | nil => simp [utils.isObjectEmpty, JSObject.keys]
  | cons p rest => simp [utils.isObjectEmpty, JSObject.keys]

theorem append_newline_ne_empty (s : String) : s ++ "\n" ≠ "" := by
  intro h
  have h1 := getLast_append_newline s
  rw [h] at h1
  cases h1

/-- C15: the object `logs` that `_getLogs` builds has at most the keys `event`
and `context`, in this order; it has `event` exactly when the event has a key
other than `http_request`, and `context` exactly when the context has a key
other than `runtime`, `source` and `system`; and the body is the empty string
exactly when it has neither. -/
theorem logs_structure (pk : Packages) (lc : LogContext) :
    JSObject.keys (pretty.collectLogs (pretty.removeKeys lc).event (pretty.removeKeys lc).context)
      = (if utils.isObjectEmpty (pretty.removeKeys lc).event then [] else ["event"]) ++
        (if utils.isObjectEmpty (pretty.removeKeys lc).context then [] else ["context"]) ∧
    ("event" ∈ JSObject.keys
        (pretty.collectLogs (pretty.removeKeys lc).event (pretty.removeKeys lc).context)
      ↔ ∃ k, k ∈ JSObject.keys lc.event ∧ k ≠ "http_request") ∧
    ("context" ∈ JSObject.keys
        (pretty.collectLogs (pretty.removeKeys lc).event (pretty.removeKeys lc).context)
      ↔ ∃ k, k ∈ JSObject.keys lc.context ∧ k ≠ "runtime" ∧ k ≠ "source" ∧ k ≠ "system") ∧
    ((pretty._getLogs pk lc).1 = .ok ""
      ↔ "event" ∉ JSObject.keys
          (pretty.collectLogs (pretty.removeKeys lc).event (pretty.removeKeys lc).context) ∧
        "context" ∉ JSObject.keys
          (pretty.collectLogs (pretty.removeKeys lc).event (pretty.removeKeys lc).context)) := by
  have hev : utils.isObjectEmpty (pretty.removeKeys lc).event = false
      ↔ ∃ k, k ∈ JSObject.keys lc.event ∧ k ≠ "http_request" := by
    rw [isObjectEmpty_false_iff, removeKeys_event]
    simp only [mem_keys_delete_iff]
  have hctx : utils.isObjectEmpty (pretty.removeKeys lc).context = false
      ↔ ∃ k, k ∈ JSObject.keys lc.context ∧ k ≠ "runtime" ∧ k ≠ "source" ∧ k ≠ "system" := by
    rw [isObjectEmpty_false_iff, removeKeys_context]
    simp only [mem_keys_delete_iff, and_assoc]
  refine ⟨collectLogs_keys _ _, ?_, ?_, ?_⟩
  · rw [collectLogs_keys, ← hev]
    cases utils.isObjectEmpty (pretty.removeKeys lc).event <;>
      cases utils.isObjectEmpty (pretty.removeKeys lc).context <;> simp
  · rw [collectLogs_keys, ← hctx]
    cases utils.isObjectEmpty (pretty.removeKeys lc).event <;>
      cases utils.isObjectEmpty (pretty.removeKeys lc).context <;> simp
  · rw [getLogs_fst, collectLogs_keys]
    have hne := append_newline_ne_empty (pk.format (.obj (safeCopyProps
      (pretty.collectLogs (pretty.removeKeys lc).event (pretty.removeKeys lc).context))) "space" 2)
    have hempty : utils.isObjectEmpty
        (pretty.collectLogs (pretty.removeKeys lc).event (pretty.removeKeys lc).context)
        = (utils.isObjectEmpty (pretty.removeKeys lc).event &&
            utils.isObjectEmpty (pretty.removeKeys lc).context) := by
      rw [utils.isObjectEmpty, collectLogs_keys]
      cases utils.isObjectEmpty (pretty.removeKeys lc).event <;>
        cases utils.isObjectEmpty (pretty.removeKeys lc).context <;> rfl
    rw [hempty]
    cases utils.isObjectEmpty (pretty.removeKeys lc).event <;>
      cases utils.isObjectEmpty (pretty.removeKeys lc).context <;> simp [hne]

/-- Witness of C15: `diskFullBusy` gives both keys, in order, and a body that
is not empty; `diskFull` gives neither key and the empty body. -/
theorem logs_structure_witness :
    JSObject.keys (pretty.collectLogs (pretty.removeKeys diskFullBusy).event
      (pretty.removeKeys diskFullBusy).context) = ["event", "context"] ∧
    (pretty._getLogs samplePackages diskFullBusy).1 ≠ .ok "" ∧
    (pretty._getLogs samplePackages diskFull).1 = .ok "" := by
  obtain ⟨hkeys, hev, _, hbody⟩ := logs_structure samplePackages diskFullBusy
  refine ⟨by rw [hkeys]; rfl, ?_, rfl⟩
  intro h
  exact (hbody.mp h).1 (hev.mpr ⟨"bytes", by decide, by decide⟩)

/-! ## Lemmas on repeated calls -/

theorem delete_of_not_mem_keys (key : String) (o : JSObject) (h : key ∉ JSObject.keys o) :
    JSObject.delete o key = o := by
  simp only [JSObject.delete, List.filter_eq_self, bne_iff_ne, ne_eq]
  intro p hp hk
  exact h (by rw [← hk]; exact List.mem_map_of_mem Prod.fst hp)

theorem delete_idem (key : String) (o : JSObject) :
    JSObject.delete (JSObject.delete o key) key = JSObject.delete o key :=
  delete_of_not_mem_keys key _ (not_mem_keys_delete key o)

/-- Removing the reserved keys a second time changes nothing. -/
theorem removeKeys_idem (lc : LogContext) :
    pretty.removeKeys (pretty.removeKeys lc) = pretty.removeKeys lc := by
  have hctx : (pretty.removeKeys (pretty.removeKeys lc)).context = (pretty.removeKeys lc).context := by
    rw [removeKeys_context_filter, removeKeys_context_filter, List.filter_filter]
    congr 1
    funext p
    exact Bool.and_self _
  have hev : (pretty.removeKeys (pretty.removeKeys lc)).event = (pretty.removeKeys lc).event := by
    rw [removeKeys_event, removeKeys_event, delete_idem]
  calc pretty.removeKeys (pretty.removeKeys lc)
      = { pretty.removeKeys lc with
            event := (pretty.removeKeys (pretty.removeKeys lc)).event,
            context := (pretty.removeKeys (pretty.removeKeys lc)).context } := rfl
    _ = pretty.removeKeys lc := by rw [hev, hctx]

/-- A second call of `_getLogs` returns what the first returned and leaves the
log context as the first left it. -/
theorem getLogs_twice (pk : Packages) (lc : LogContext) :
    pretty._getLogs pk (pretty._getLogs pk lc).2 = pretty._getLogs pk lc := by
  rw [getLogs_snd]
  exact Prod.ext (by rw [getLogs_fst, getLogs_fst, removeKeys_idem])
    (by rw [getLogs_snd, getLogs_snd, removeKeys_idem])

/-- C16: the filtering of `_getLogs` is idempotent: a second call on the same
log context changes nothing more in event and context and returns the string
of the first call; likewise a second call of `writePretty` with `noFilename`
set and the same options; and deleting a key that is absent changes nothing
(and cannot throw). -/
theorem filtering_idempotent (pk : Packages) (lc : LogContext) :
    pretty._getLogs pk (pretty._getLogs pk lc).2 = pretty._getLogs pk lc ∧
    (pretty._getLogs pk (pretty._getLogs pk lc).2).2 = (pretty._getLogs pk lc).2 ∧
    (∀ opts, pretty.flag opts "noFilename" = true →
      pretty.writePretty pk (pretty.writePretty pk lc opts).2 opts = pretty.writePretty pk lc opts) ∧
    (∀ (o : JSObject) (key : String), key ∉ JSObject.keys o → JSObject.delete o key = o) := by
  refine ⟨getLogs_twice pk lc, by rw [getLogs_twice], ?_,
    fun o key h => delete_of_not_mem_keys key o h⟩
  intro opts hnf
  cases hr : (pretty.writePretty pk lc opts).1 with
  | error e => rw [writePretty_error_snd pk lc opts e hr]
  | ok out =>
    obtain ⟨cfg, name, _, hcfg, hfile, _, _⟩ := writePretty_ok_inv pk lc opts out hr
    cases honly : pretty.flag opts "onlyMessage" with
    | true =>
      rw [writePretty_ok_snd pk lc opts out hr, honly]
      rfl
    | false =>
      obtain ⟨logs, hlogs⟩ := getLogs_ok pk lc
      have h2 : pretty._getLogs pk (pretty.removeKeys lc) = (.ok logs, pretty.removeKeys lc) := by
        have := getLogs_twice pk lc
        rw [getLogs_snd] at this
        rw [this, hlogs]
      rw [writePretty_registered pk lc opts cfg name logs (pretty.removeKeys lc) hcfg hfile
        (by simp [honly, hlogs])]
      rw [writePretty_registered pk (pretty.removeKeys lc) opts cfg name logs (pretty.removeKeys lc)
        hcfg (by simp [hnf]) (by simp [honly, h2])]
      rfl

/-- Witness of C16: two calls on `diskFullBusy`. -/
theorem filtering_idempotent_witness :
    (pretty._getLogs samplePackages diskFullBusy).2 ≠ diskFullBusy ∧
    pretty._getLogs samplePackages (pretty._getLogs samplePackages diskFullBusy).2
      = pretty._getLogs samplePackages diskFullBusy ∧
    pretty.writePretty samplePackages
        (pretty.writePretty samplePackages diskFullBusy (.obj [("noFilename", .bool true)])).2
        (.obj [("noFilename", .bool true)])
      = pretty.writePretty samplePackages diskFullBusy (.obj [("noFilename", .bool true)]) := by
  refine ⟨?_, (filtering_idempotent samplePackages diskFullBusy).1,
    (filtering_idempotent samplePackages diskFullBusy).2.2.1 _ rfl⟩
  intro h
  have h2 : (pretty._getLogs samplePackages diskFullBusy).2.context = diskFullBusy.context := by
    rw [h]
  rw [getLogs_snd, removeKeys_context_filter] at h2
  have h3 := congrArg List.length h2
  simp [diskFullBusy] at h3

/-- After the removal of keys the context has no `source`. -/
theorem removeKeys_source (lc : LogContext) :
    JSObject.get (pretty.removeKeys lc).context "source" = .undefined := by
  have h : "source" ∉ JSObject.keys (pretty.removeKeys lc).context := by
    rw [removeKeys_context]
    intro hm
    exact not_mem_keys_delete "source" _ (mem_keys_delete _ _ _ hm)
  simp [JSObject.get, lookup_of_not_mem_keys "source" _ h]

/-- Without `noFilename`, `writePretty` throws at once on a log context whose
`context.source` is undefined. -/
theorem writePretty_no_source (pk : Packages) (lc : LogContext) (opts : JSValue)
    (hnf : pretty.flag opts "noFilename" = false)
    (hsrc : JSObject.get lc.context "source" = .undefined) :
    pretty.writePretty pk lc opts = (.error (.readOfNullish "file_name"), lc) := by
  unfold pretty.writePretty
  simp [hnf, pretty.fileName, hsrc, JSValue.getMember]

/-- C17: for a registered level and a readable `context.source.file_name`, a
call of `writePretty` with `onlyMessage` false (and `noFilename` false, or
set: it makes no difference) returns, and leaves a log context without
`context.source`: a second call on it with `noFilename` false throws. -/
theorem second_call_faults (pk : Packages) (lc : LogContext) (opts1 opts2 : JSValue)
    (name : JSValue)
    (hlevel : lc.level ∈ severities)
    (hfile : pretty.fileName lc = .ok name)
    (honly1 : pretty.flag opts1 "onlyMessage" = false)
    (hnf2 : pretty.flag opts2 "noFilename" = false) :
    (∃ out, (pretty.writePretty pk lc opts1).1 = .ok out) ∧
    JSObject.get (pretty.writePretty pk lc opts1).2.context "source" = .undefined ∧
    pretty.writePretty pk (pretty.writePretty pk lc opts1).2 opts2
      = (.error (.readOfNullish "file_name"), (pretty.writePretty pk lc opts1).2) := by
  obtain ⟨cfg, hcfg⟩ := (lookup_isSome_iff pk.chalk lc.level).mpr hlevel
  obtain ⟨logs, hlogs⟩ := getLogs_ok pk lc
  have h1 := writePretty_registered pk lc opts1 cfg name logs (pretty.removeKeys lc) hcfg
    (fun _ => hfile) (by simp [honly1, hlogs])
  rw [h1]
  exact ⟨⟨_, rfl⟩, removeKeys_source lc,
    writePretty_no_source pk _ opts2 hnf2 (removeKeys_source lc)⟩

/-- Witness of C17: two calls on the record of section 8 with default
options. -/
theorem second_call_faults_witness :
    diskFull.level ∈ severities ∧
    pretty.fileName diskFull = .ok (.str "disk.js") ∧
    (∃ out, (pretty.writePretty samplePackages diskFull .undefined).1 = .ok out) ∧
    (pretty.writePretty samplePackages
        (pretty.writePretty samplePackages diskFull .undefined).2 .undefined).1
      = .error (.readOfNullish "file_name") := by
  have h := second_call_faults samplePackages diskFull .undefined .undefined (.str "disk.js")
    (by decide) rfl rfl rfl
  exact ⟨by decide, rfl, h.1, by rw [h.2.2]⟩

/-- C18: the exceptions of the header are atomic.  When the level is not
registered, or `context.source` is undefined or null while the filename is
wanted, `writePretty` throws before `_getLogs` runs, whatever `onlyMessage`
is: the log context, its event and its context included, is left exactly as
it was.  No call that throws changes the log context. -/
theorem header_faults_atomic (pk : Packages) (lc : LogContext) (opts : JSValue)
    (hcause : (LEVELS_CONFIG pk.chalk).lookup lc.level = none ∨
      (pretty.flag opts "noFilename" = false ∧
        (JSObject.get lc.context "source" = .undefined ∨
          JSObject.get lc.context "source" = .null))) :
    (∃ e, pretty.writePretty pk lc opts = (.error e, lc)) ∧
    ∀ (opts2 : JSValue) (e : Fault), (pretty.writePretty pk lc opts2).1 = .error e →
      (pretty.writePretty pk lc opts2).2 = lc := by
  refine ⟨?_, fun opts2 e h => writePretty_error_snd pk lc opts2 e h⟩
  cases hr : (pretty.writePretty pk lc opts).1 with
  | error e => exact ⟨e, Prod.ext hr (writePretty_error_snd pk lc opts e hr)⟩
  | ok out =>
    exfalso
    obtain ⟨cfg, name, _, hcfg, hfile, _, _⟩ := writePretty_ok_inv pk lc opts out hr
    rcases hcause with hnone | ⟨hnf, hsrc⟩
    · rw [hnone] at hcfg
      cases hcfg
    · have hfn := hfile hnf
      rw [pretty.fileName] at hfn
      rcases hsrc with h | h <;> rw [h] at hfn <;> simp [JSValue.getMember] at hfn

/-- Witness of C18: an unregistered level on a record with reserved keys, and
a record without `context.source`, with `onlyMessage` false. -/
theorem header_faults_atomic_witness :
    (LEVELS_CONFIG samplePackages.chalk).lookup constructorLevel.level = none ∧
    pretty.flag allFlagsFalse "onlyMessage" = false ∧
    (∃ e, pretty.writePretty samplePackages constructorLevel allFlagsFalse
      = (.error e, constructorLevel)) ∧
    (∃ e, pretty.writePretty samplePackages noSource allFlagsFalse = (.error e, noSource)) :=
  ⟨rfl, rfl,
    (header_faults_atomic samplePackages constructorLevel allFlagsFalse (Or.inl rfl)).1,
    (header_faults_atomic samplePackages noSource allFlagsFalse (Or.inr ⟨rfl, Or.inl rfl⟩)).1⟩
